import Mathlib

/-!
# ThreatExchange Go client (api-reference-examples/go/threatexchange)

A shallow embedding of `threatexchange.go`: the data-transfer records, the
single `query` function that assembles the request URL, performs the HTTP GET
and decodes the response, and the four public operations that delegate to it.

Go strings are byte sequences, so a string is a list of bytes.  The pieces of
the Go standard library that `query` calls are modelled next to it:

* `fmt.Sprintf` for the three format strings used (`%s|%s`, `%d`, `/%s/%s/`);
* `net/url`: `shouldEscape`, `escape`, `QueryEscape`, `unescape`
  (`QueryUnescape`), `Values.Add`, `Values.Get`, `Values.Encode`,
  `ParseQuery`, and `URL.String` for the fields `query` sets;
* `net/http` and `io/ioutil`: the transport is a function from the requested
  URL to its outcome, and a response body is the outcome of reading it;
* `encoding/json`: `json.Unmarshal` for a destination type is a function
  from the bytes and the destination's current value to the destination's new
  value and an optional error.  For the four result structs it is also modelled:
  the scanner that accepts or rejects a text, the unquoting of strings, and the
  decoding of the top-level object into the fields `data`, `paging`, `next`; the
  decoding of one record and of the paging value, and the error values, stay
  parameters.
-/

namespace ThreatExchange

/-! ## Strings -/

/-- One byte of a Go string. -/
abbrev Byte := Fin 256

/-- Go `string`: an immutable sequence of bytes. -/
abbrev GoString := List Byte

/-- An ASCII string literal of the source as a Go string. -/
def lit (s : String) : GoString := s.data.map (fun c => Fin.ofNat c.toNat)

/-- Go `fmt.Sprintf("%d", n)` for an `int`: decimal digits, with a leading minus sign
for a negative number. -/
def formatInt (n : Int) : GoString := lit (toString n)

/-- Go string comparison `a <= b`: bytewise lexicographic order. -/
def strLe : GoString → GoString → Bool
  | [], _ => true
  | _ :: _, [] => false
  | a :: as, b :: bs => decide (a < b) || (decide (a = b) && strLe as bs)

/-- Go `slices.Sort(keys)` on a slice of strings: the keys in ascending order. -/
def sortStrings (keys : List GoString) : List GoString :=
  keys.insertionSort (fun a b => strLe a b = true)

/-- Go `strings.Cut(s, sep)` for a one-byte separator: the text before the first
`sep`, the text after it, and whether `sep` was found. -/
def cut (s : GoString) (sep : Byte) : GoString × GoString × Bool :=
  match s with
  | [] => ([], [], false)
  | c :: rest =>
    if c = sep then ([], rest, true)
    else
      let r := cut rest sep
      (c :: r.1, r.2.1, r.2.2)

/-! ## net/url: escaping -/

/-- The escaping modes of `net/url` that a URL built by `query` goes through. -/
inductive Encoding where
  | encodePath
  | encodeHost
  | encodeQueryComponent
  deriving DecidableEq, Repr

/-- Letters and digits: `'a' <= c && c <= 'z' || 'A' <= c && c <= 'Z' || '0' <= c && c <= '9'`. -/
def isAlnum (c : Byte) : Bool :=
  (decide (97 ≤ c) && decide (c ≤ 122)) || (decide (65 ≤ c) && decide (c ≤ 90)) ||
    (decide (48 ≤ c) && decide (c ≤ 57))

/-- Go `net/url.shouldEscape(c, mode)`. -/
def shouldEscape (c : Byte) (mode : Encoding) : Bool :=
  if isAlnum c then false
  else if mode = Encoding.encodeHost ∧ c ∈ lit "!$&()*+,;=:[]<>" ++ [39, 34] then false
  else if c ∈ lit "-_.~" then false
  else if c ∈ lit "$&+,/:;=?@" then
    match mode with
    | Encoding.encodePath => decide (c = 63)
    | Encoding.encodeQueryComponent => true
    | Encoding.encodeHost => true
  else true

/-- The table `upperhex = "0123456789ABCDEF"` of `net/url`, indexed. -/
def upperhex (i : Nat) : Byte := (lit "0123456789ABCDEF").getD i 0

/-- One round of the counting loop at the start of `net/url.escape`: `cnt` is
`(spaceCount, hexCount)`. -/
def escapeCountStep (mode : Encoding) (cnt : Nat × Nat) (c : Byte) : Nat × Nat :=
  if shouldEscape c mode then
    if c = 32 ∧ mode = Encoding.encodeQueryComponent then (cnt.1 + 1, cnt.2) else (cnt.1, cnt.2 + 1)
  else cnt

/-- The number of spaces that become `+` and the number of bytes that become `%XX`:
the counting loop at the start of `net/url.escape`. -/
def escapeCounts (s : GoString) (mode : Encoding) : Nat × Nat :=
  s.foldl (escapeCountStep mode) (0, 0)

/-- One round of the writing loop of `net/url.escape`: what is written for the byte `c`. -/
def escapeWrite (mode : Encoding) (c : Byte) : GoString :=
  if c = 32 ∧ mode = Encoding.encodeQueryComponent then [43]
  else if shouldEscape c mode then [37, upperhex (c.val >>> 4), upperhex (c.val &&& 15)]
  else [c]

/-- Go `net/url.escape(s, mode)`. -/
def escape (s : GoString) (mode : Encoding) : GoString :=
  let cnt := escapeCounts s mode
  if cnt.1 = 0 ∧ cnt.2 = 0 then s
  else if cnt.2 = 0 then s.map (fun c => if c = 32 then 43 else c)
  else s.flatMap (escapeWrite mode)

/-- Go `url.QueryEscape`. -/
def queryEscape (s : GoString) : GoString := escape s Encoding.encodeQueryComponent

/-- Go `net/url.ishex`. -/
def ishex (c : Byte) : Bool :=
  (decide (48 ≤ c) && decide (c ≤ 57)) || (decide (97 ≤ c) && decide (c ≤ 102)) ||
    (decide (65 ≤ c) && decide (c ≤ 70))

/-- Go `net/url.unhex`; byte arithmetic wraps modulo 256. -/
def unhex (c : Byte) : Byte :=
  if 48 ≤ c ∧ c ≤ 57 then c - 48
  else if 97 ≤ c ∧ c ≤ 102 then c - 97 + 10
  else if 65 ≤ c ∧ c ≤ 70 then c - 65 + 10
  else 0

/-- Errors of `net/url` that decoding a query string can report. -/
inductive UrlError where
  | escapeError (s : GoString)
  | invalidSemicolon
  deriving DecidableEq, Repr

/-- The first loop of `net/url.unescape` in mode `encodeQueryComponent`: counts the
`%` escapes, notes a `+`, and rejects a `%` that is not followed by two hex digits
with the offending text (at most three bytes). -/
def unescapeScan : GoString → Nat → Bool → Except UrlError (Nat × Bool)
  | [], n, hasPlus => Except.ok (n, hasPlus)
  | c :: rest, n, hasPlus =>
    if c = 37 then
      match rest with
      | a :: b :: rest2 =>
        if ishex a && ishex b then unescapeScan rest2 (n + 1) hasPlus
        else Except.error (UrlError.escapeError [c, a, b])
      | _ => Except.error (UrlError.escapeError (c :: rest))
    else if c = 43 then unescapeScan rest n true
    else unescapeScan rest n hasPlus

/-- The second loop of `net/url.unescape` in mode `encodeQueryComponent`, run on a
string the first loop accepted. -/
def unescapeBuild : GoString → GoString
  | [] => []
  | c :: rest =>
    if c = 37 then
      match rest with
      | a :: b :: rest2 => ((unhex a <<< (4 : Byte)) ||| unhex b) :: unescapeBuild rest2
      | _ => []
    else if c = 43 then 32 :: unescapeBuild rest
    else c :: unescapeBuild rest

/-- Go `url.QueryUnescape(s)`, that is `unescape(s, encodeQueryComponent)`. -/
def queryUnescape (s : GoString) : Except UrlError GoString :=
  match unescapeScan s 0 false with
  | Except.error e => Except.error e
  | Except.ok (n, hasPlus) =>
    if n = 0 ∧ hasPlus = false then Except.ok s else Except.ok (unescapeBuild s)

/-! ## net/url: Values -/

/-- Go `url.Values`, a `map[string][]string`: one entry per key, holding the values
added under that key in the order they were added. -/
abbrev Values := List (GoString × List GoString)

/-- The slice `v[key]` (empty when the key is absent). -/
def Values.get (v : Values) (key : GoString) : List GoString :=
  match v with
  | [] => []
  | (k, vs) :: rest => if k = key then vs else Values.get rest key

/-- Go `Values.Get(key)`: the first value of the key, or the empty string. -/
def Values.Get (v : Values) (key : GoString) : GoString :=
  match Values.get v key with
  | [] => []
  | x :: _ => x

/-- Go `Values.Add(key, value)`: `v[key] = append(v[key], value)`. -/
def Values.add (v : Values) (key value : GoString) : Values :=
  match v with
  | [] => [(key, [value])]
  | (k, vs) :: rest =>
    if k = key then (k, vs ++ [value]) :: rest else (k, vs) :: Values.add rest key value

/-- The keys of the map. -/
def Values.keys (v : Values) : List GoString := v.map Prod.fst

/-- Go `Values.Encode()`: the keys sorted, and for every key each of its values as
`QueryEscape(key)=QueryEscape(value)`, separated by `&`. -/
def Values.encode (v : Values) : GoString :=
  if v.length = 0 then []
  else
    (sortStrings (Values.keys v)).foldl
      (fun buf k =>
        let vs := Values.get v k
        let keyEscaped := queryEscape k
        vs.foldl
          (fun buf value =>
            (if buf.length > 0 then buf ++ [38] else buf) ++ keyEscaped ++ [61] ++ queryEscape value)
          buf)
      []

/-- The loop of `net/url.parseQuery`; each round cuts one `&`-separated piece off
the query, so `fuel` rounds suffice for a query shorter than `fuel` bytes. -/
def parseQueryLoop : Nat → Values → Option UrlError → GoString → Values × Option UrlError
  | 0, m, err, _ => (m, err)
  | fuel + 1, m, err, query =>
    if query = [] then (m, err)
    else
      let c := cut query 38
      let key := c.1
      let query2 := c.2.1
      if (59 : Byte) ∈ key then parseQueryLoop fuel m (some UrlError.invalidSemicolon) query2
      else if key = [] then parseQueryLoop fuel m err query2
      else
        let kv := cut key 61
        match queryUnescape kv.1 with
        | Except.error err1 => parseQueryLoop fuel m (if err = none then some err1 else err) query2
        | Except.ok key1 =>
          match queryUnescape kv.2.1 with
          | Except.error err1 => parseQueryLoop fuel m (if err = none then some err1 else err) query2
          | Except.ok value => parseQueryLoop fuel (Values.add m key1 value) err query2

/-- Go `url.ParseQuery(query)`: the decoded parameter set and the first error met. -/
def parseQuery (query : GoString) : Values × Option UrlError :=
  parseQueryLoop (query.length + 1) [] none query

/-! ## net/url: URL -/

/-- Go `url.URL`, with the fields that `url.Parse(DefaultURL)` and `query` set; the
other fields (`Opaque`, `User`, `RawPath`, `ForceQuery`, `Fragment`) keep their zero
value throughout. -/
structure URL where
  Scheme : GoString
  Host : GoString
  Path : GoString
  RawQuery : GoString
  deriving DecidableEq, Repr

/-- Go `(*URL).EscapedPath()` when `RawPath` is empty. -/
def URL.EscapedPath (u : URL) : GoString :=
  if u.Path = lit "*" then lit "*" else escape u.Path Encoding.encodePath

/-- Go `(*URL).String()` for a URL whose `Opaque`, `User`, `ForceQuery` and `Fragment`
are zero. -/
def URL.String (u : URL) : GoString :=
  let buf : GoString := []
  let buf := if u.Scheme ≠ [] then buf ++ u.Scheme ++ lit ":" else buf
  let buf :=
    if u.Scheme ≠ [] ∨ u.Host ≠ [] then
      let buf := if u.Host ≠ [] ∨ u.Path ≠ [] then buf ++ lit "//" else buf
      if u.Host ≠ [] then buf ++ escape u.Host Encoding.encodeHost else buf
    else buf
  let path := URL.EscapedPath u
  let buf := if path ≠ [] ∧ path.head? ≠ some 47 ∧ u.Host ≠ [] then buf ++ lit "/" else buf
  let buf :=
    if buf.length = 0 then
      if (58 : Byte) ∈ (cut path 47).1 then buf ++ lit "./" else buf
    else buf
  let buf := buf ++ path
  if u.RawQuery ≠ [] then buf ++ lit "?" ++ u.RawQuery else buf

/-! ## Errors, transport and decoder -/

/-- A Go `error` value, identified by the text of its `Error()` method. -/
structure GoError where
  msg : GoString
  deriving DecidableEq, Repr

/-- Go `fmt.Errorf` applied to an already formatted message. -/
def Errorf (msg : GoString) : GoError := ⟨msg⟩

/-- The `Body` of an `http.Response` as `query` uses it: what `ioutil.ReadAll`
returns for it, the bytes or a read error. -/
structure Body where
  readAll : Except GoError GoString
  deriving Repr

/-- The part of an `http.Response` that `query` inspects. -/
structure Response where
  StatusCode : Int
  Body : Option Body
  deriving Repr

/-- The outcome of `http.Get(url)` for every URL: a transport error or a response. -/
abbrev Transport := GoString → Except GoError Response

/-- Go `json.Unmarshal(data, result)` for a destination of type `R`: from the bytes
and the value `result` points to, the value it points to afterwards and the error. -/
abbrev Unmarshal (R : Type) := GoString → R → R × Option GoError

/-- What a call of `query` does to the outside, in order. -/
inductive Event where
  | httpGet (url : GoString)
  | readBody
  | unmarshal (data : GoString)
  | closeBody
  | log (line : GoString)
  deriving DecidableEq, Repr

/-! ## Data model -/

structure MalwareFamilyResult where
  ID : GoString
  Aliases : List GoString
  AddedOn : GoString
  Description : GoString
  FamilyType : GoString
  Malicious : GoString
  Name : GoString
  SampleCount : Int
  SubmitterCount : Int
  deriving DecidableEq, Repr

structure MalwareResult where
  ID : GoString
  Crx : GoString
  PEHash : GoString
  MD5 : GoString
  Password : GoString
  PEHeader : GoString
  Sample : GoString
  SampleType : GoString
  Sha1 : GoString
  Sha256 : GoString
  ShareLevel : GoString
  Ssdeep : GoString
  SubmitterCount : GoString
  VictimCount : Int
  Xpi : GoString
  Status : GoString
  AddedOn : GoString
  PrivacyType : GoString
  deriving DecidableEq, Repr

structure Cursors where
  Before : GoString
  After : GoString
  deriving DecidableEq, Repr

structure ResultPaging where
  Cursors : Cursors
  deriving DecidableEq, Repr

structure IndicatorResult where
  ID : GoString
  Indicator : GoString
  Type_ : GoString
  deriving DecidableEq, Repr

structure TEOwner where
  ID : GoString
  Email : GoString
  Name : GoString
  deriving DecidableEq, Repr

structure ThreatDescriptor where
  ID : GoString
  Indicator : IndicatorResult
  Owner : TEOwner
  Type_ : GoString
  RawIndicator : GoString
  Description : GoString
  Status : GoString
  PrivacyType : GoString
  ShareLevel : GoString
  AddedOn : GoString
  Confidence : Int
  ExpiredOn : GoString
  LastUpdated : GoString
  SourceUri : GoString
  deriving DecidableEq, Repr

structure MalwareFamiliesResults where
  Data : List MalwareFamilyResult
  Paging : ResultPaging
  Next : GoString
  deriving DecidableEq, Repr

structure MalwareResults where
  Data : List MalwareResult
  Paging : ResultPaging
  Next : GoString
  deriving DecidableEq, Repr

structure ThreatDescriptorResults where
  Data : List ThreatDescriptor
  Paging : ResultPaging
  Next : GoString
  deriving DecidableEq, Repr

structure TEOwnersResults where
  Data : List TEOwner
  Paging : ResultPaging
  Next : GoString
  deriving DecidableEq, Repr

/-- The zero value `ResultPaging{}`. -/
def ResultPaging.zero : ResultPaging := ⟨⟨[], []⟩⟩

/-- The zero value `&MalwareFamiliesResults{}`. -/
def MalwareFamiliesResults.zero : MalwareFamiliesResults := ⟨[], ResultPaging.zero, []⟩

/-- The zero value `&MalwareResults{}`. -/
def MalwareResults.zero : MalwareResults := ⟨[], ResultPaging.zero, []⟩

/-- The zero value `&ThreatDescriptorResults{}`. -/
def ThreatDescriptorResults.zero : ThreatDescriptorResults := ⟨[], ResultPaging.zero, []⟩

/-- The zero value `&TEOwnersResults{}`. -/
def TEOwnersResults.zero : TEOwnersResults := ⟨[], ResultPaging.zero, []⟩

/-! ## The client -/

/-- DefaultURL is the URL for the API endpoint. -/
def DefaultURL : GoString := lit "https://graph.facebook.com"

/-- The constant `apiVersion`. -/
def apiVersion : GoString := lit "v2.5"

/-- Go `http.StatusOK`. -/
def StatusOK : Int := 200

/-- The URL that `url.Parse(DefaultURL)` returns: the constant has a scheme and a
host and nothing else. -/
def baseURL : URL :=
  { Scheme := lit "https", Host := lit "graph.facebook.com", Path := [], RawQuery := [] }

/-- The call `url.Parse(DefaultURL)`: parsing the constant does not fail. -/
def parseDefaultURL : Except GoError URL := Except.ok baseURL

/-- Client interacts with the services provided by TE.  The `logger` field is
`true` when the `*log.Logger` is not nil; the `*http.Client` field is not used by
`query`, which calls `http.Get`. -/
structure Client where
  appId : GoString
  appSecret : GoString
  logger : Bool
  deriving DecidableEq, Repr

/-- New - creates a ThreatExchange client; never fails. -/
def New (appID appSecret : GoString) (log : Bool) : Except GoError Client :=
  Except.ok { appId := appID, appSecret := appSecret, logger := log }

/-- The method `errorf` with its message already formatted: one line to the logger
when there is one. -/
def Client.errorf (c : Client) (line : GoString) : List Event :=
  if c.logger then [Event.log line] else []

/-- Lines 193-212 of `query`: the parameter set, the fixed parameters first and the
entries of `extraParams` after them in the iteration order of the map. -/
def queryParameters (c : Client) (startTime endTime resourceType text : GoString) (limit : Int)
    (extraParams : List (GoString × GoString)) : Values :=
  let parameters : Values := []
  let parameters := Values.add parameters (lit "access_token") (c.appId ++ lit "|" ++ c.appSecret)
  let parameters := if startTime.length > 0 then Values.add parameters (lit "since") startTime else parameters
  let parameters := if endTime.length > 0 then Values.add parameters (lit "until") endTime else parameters
  let parameters := if resourceType.length > 0 then Values.add parameters (lit "type") resourceType else parameters
  let parameters := if text.length > 0 then Values.add parameters (lit "text") text else parameters
  let parameters := if limit > 0 then Values.add parameters (lit "limit") (formatInt limit) else parameters
  extraParams.foldl (fun parameters kv => Values.add parameters kv.1 kv.2) parameters

/-- Lines 213-214 of `query`: the URL after `RawQuery` and `Path` are set. -/
def queryURL (u : URL) (c : Client) (apiVersion resource startTime endTime resourceType text : GoString)
    (limit : Int) (extraParams : List (GoString × GoString)) : URL :=
  let parameters := queryParameters c startTime endTime resourceType text limit extraParams
  let u := { u with RawQuery := Values.encode parameters }
  { u with Path := u.Path ++ (lit "/" ++ apiVersion ++ lit "/" ++ resource ++ lit "/") }

/-- What a call of `query` leaves behind: the value `result` points to, the returned
string and error, and the events in order. -/
structure QueryOutcome (R : Type) where
  result : R
  raw : GoString
  err : Option GoError
  trace : List Event

/-- The method `query`.  An `extraParams` map is the list of its entries in the
order the `range` loop visits them.  The first branch, the failure of
`url.Parse(DefaultURL)`, is kept for the shape of the source; it is not taken, since
parsing the constant succeeds, and its log line is left without the URL text. -/
def Client.query {R : Type} (c : Client) (get : Transport) (unmarshal : Unmarshal R)
    (apiVersion resource startTime endTime resourceType text : GoString) (limit : Int)
    (extraParams : List (GoString × GoString)) (result : R) : QueryOutcome R :=
  match parseDefaultURL with
  | Except.error err => ⟨result, [], some err, c.errorf (lit "Could not parse url ")⟩
  | Except.ok u =>
    let u := queryURL u c apiVersion resource startTime endTime resourceType text limit extraParams
    match get (URL.String u) with
    | Except.error err => ⟨result, [], some err, [Event.httpGet (URL.String u)]⟩
    | Except.ok res =>
      match res.Body with
      | none =>
        ⟨result, [], some (Errorf (lit "Empty body for query : " ++ URL.String u)),
          [Event.httpGet (URL.String u)]⟩
      | some body =>
        if res.StatusCode ≠ StatusOK then
          ⟨result, [], some (Errorf (lit "Wrong http return code, got : " ++ formatInt res.StatusCode)),
            [Event.httpGet (URL.String u)] ++
              c.errorf (lit "Wrong http return code, got : " ++ formatInt res.StatusCode) ++
              [Event.closeBody]⟩
        else
          match body.readAll with
          | Except.error err =>
            ⟨result, [], some err,
              [Event.httpGet (URL.String u), Event.readBody] ++
                c.errorf (lit "Could not read response body : " ++ err.msg) ++ [Event.closeBody]⟩
          | Except.ok byteRes =>
            match unmarshal byteRes result with
            | (result2, some err) =>
              ⟨result2, [], some err,
                [Event.httpGet (URL.String u), Event.readBody, Event.unmarshal byteRes] ++
                  c.errorf (lit "Could not Unmarshal response body : " ++ byteRes ++
                    lit ", for resource : " ++ resource) ++
                  [Event.closeBody]⟩
            | (result2, none) =>
              ⟨result2, byteRes, none,
                [Event.httpGet (URL.String u), Event.readBody, Event.unmarshal byteRes, Event.closeBody]⟩

/-- What a public operation returns and does: the typed result (`none` for a nil
pointer), the raw body, the error, and the events of the call. -/
structure Outcome (R : Type) where
  result : Option R
  raw : GoString
  err : Option GoError
  trace : List Event

/-- The common tail of the four public operations: `if err != nil { return nil, "", err }`
and `return result, res, nil`. -/
def Outcome.ofQuery {R : Type} (q : QueryOutcome R) : Outcome R :=
  match q.err with
  | some err => ⟨none, [], some err, q.trace⟩
  | none => ⟨some q.result, q.raw, none, q.trace⟩

/-- GetThreatIndicators - is a query to retrieve ThreatIndicators; limit of size <=0
will be ignored. -/
def Client.GetThreatIndicators (c : Client) (get : Transport) (unmarshal : Unmarshal ThreatDescriptorResults)
    (resourceType text startTime endTime : GoString) (limit : Int)
    (extraParams : List (GoString × GoString)) : Outcome ThreatDescriptorResults :=
  Outcome.ofQuery
    (c.query get unmarshal apiVersion (lit "threat_descriptors") startTime endTime resourceType text limit
      extraParams ThreatDescriptorResults.zero)

/-- GetMalwareAnalyses - is a query to retrieve Malware Analyses. -/
def Client.GetMalwareAnalyses (c : Client) (get : Transport) (unmarshal : Unmarshal MalwareResults)
    (text startTime endTime : GoString) (limit : Int)
    (extraParams : List (GoString × GoString)) : Outcome MalwareResults :=
  Outcome.ofQuery
    (c.query get unmarshal apiVersion (lit "malware_analyses") startTime endTime [] text limit
      extraParams MalwareResults.zero)

/-- GetMalwareFamilies - is a query to retrieve malware families. -/
def Client.GetMalwareFamilies (c : Client) (get : Transport) (unmarshal : Unmarshal MalwareFamiliesResults)
    (text startTime endTime : GoString) (limit : Int)
    (extraParams : List (GoString × GoString)) : Outcome MalwareFamiliesResults :=
  Outcome.ofQuery
    (c.query get unmarshal apiVersion (lit "malware_families") startTime endTime [] text limit
      extraParams MalwareFamiliesResults.zero)

/-- GetThreatExchangeMembers - is a query to retrieve ThreatExchange members. -/
def Client.GetThreatExchangeMembers (c : Client) (get : Transport) (unmarshal : Unmarshal TEOwnersResults) :
    Outcome TEOwnersResults :=
  Outcome.ofQuery
    (c.query get unmarshal apiVersion (lit "threat_exchange_members") [] [] [] [] 0 []
      TEOwnersResults.zero)

/-! ## Vocabulary of the statements -/

/-- The URL string that `query` passes to `http.Get`. -/
def Client.requestURL (c : Client) (resource startTime endTime resourceType text : GoString) (limit : Int)
    (extraParams : List (GoString × GoString)) : GoString :=
  URL.String (queryURL baseURL c apiVersion resource startTime endTime resourceType text limit extraParams)

/-- The values that the entries of `extraParams` hold under `key`, in iteration
order (at most one when the entries are those of a map). -/
def entriesOf (extraParams : List (GoString × GoString)) (key : GoString) : List GoString :=
  (extraParams.filter (fun kv => kv.1 = key)).map Prod.snd

/-- One pair as `Values.Encode` writes it: `QueryEscape(key)=QueryEscape(value)`. -/
def segment (p : GoString × GoString) : GoString := queryEscape p.1 ++ 61 :: queryEscape p.2

/-- The pieces joined by `&`. -/
def joinAmp : List GoString → GoString
  | [] => []
  | s :: rest => s ++ rest.flatMap (fun t => 38 :: t)

/-- The pairs `Values.Encode` writes, in the order it writes them: keys ascending,
the values of a key in the order they were added. -/
def Values.pairs (v : Values) : List (GoString × GoString) :=
  (sortStrings (Values.keys v)).flatMap (fun k => (Values.get v k).map (fun value => (k, value)))

/-- One write of `Values.Encode` into its buffer. -/
def writePair (buf : GoString) (p : GoString × GoString) : GoString :=
  (if buf.length > 0 then buf ++ [38] else buf) ++ queryEscape p.1 ++ [61] ++ queryEscape p.2

/-- Go `strings.HasPrefix(s, sub)`. -/
def startsWith : GoString → GoString → Bool
  | _, [] => true
  | [], _ :: _ => false
  | a :: s, b :: sub => decide (a = b) && startsWith s sub

/-- Go `strings.Contains(s, sub)`. -/
def strContains : GoString → GoString → Bool
  | [], sub => startsWith [] sub
  | a :: s, sub => startsWith (a :: s) sub || strContains s sub

/-- Whether the event reads the response body or hands bytes to the JSON decoder. -/
def Event.touchesBody : Event → Bool
  | Event.readBody => true
  | Event.unmarshal _ => true
  | _ => false

/-- The outcome of an operation that met HTTP status `code`, not 200, at `url`. -/
def Outcome.isStatusFailure {R : Type} (o : Outcome R) (c : Client) (url : GoString) (code : Int) : Prop :=
  o.result = none ∧ o.raw = [] ∧
    o.err = some (Errorf (lit "Wrong http return code, got : " ++ formatInt code)) ∧
    o.trace = [Event.httpGet url] ++ c.errorf (lit "Wrong http return code, got : " ++ formatInt code) ++
      [Event.closeBody] ∧
    ∀ e ∈ o.trace, e.touchesBody = false

/-- The outcome of an operation whose body `bytes`, read from `url`, the decoder
rejected with `err`. -/
def Outcome.isDecodeFailure {R : Type} (o : Outcome R) (c : Client) (url bytes resource : GoString)
    (err : GoError) : Prop :=
  o.result = none ∧ o.raw = [] ∧ o.err = some err ∧
    o.trace = [Event.httpGet url, Event.readBody, Event.unmarshal bytes] ++
      c.errorf (lit "Could not Unmarshal response body : " ++ bytes ++ lit ", for resource : " ++ resource) ++
      [Event.closeBody]

/-- The outcome of an operation that read `bytes` from `url` and decoded them to `r`. -/
def Outcome.isSuccess {R : Type} (o : Outcome R) (url bytes : GoString) (r : R) : Prop :=
  o.result = some r ∧ o.raw = bytes ∧ o.err = none ∧
    o.trace = [Event.httpGet url, Event.readBody, Event.unmarshal bytes, Event.closeBody]

/-- The two shapes of a result: success with a typed result and a non-empty raw
body, or failure with neither. -/
def Outcome.wellShaped {R : Type} (o : Outcome R) : Prop :=
  (o.err = none ∧ o.result ≠ none ∧ o.raw ≠ []) ∨ (o.err ≠ none ∧ o.result = none ∧ o.raw = [])

/-- A stand-in for `json.Unmarshal` that agrees with it on two inputs: the document
`{"data":[]}`, decoded to a result without records, and the empty input, rejected as
`unexpected end of JSON input`.  It rejects every other input in the same way. -/
def unmarshalSample {R : Type} (noRecords : R) : Unmarshal R :=
  fun data result =>
    if data = lit "\x7b\"data\":[]\x7d" then (noRecords, none)
    else (result, some ⟨lit "unexpected end of JSON input"⟩)

/-! ## encoding/json -/

/-- A JSON value as `encoding/json` reads it from a text: numbers keep their text,
strings and member names are unquoted, the members of an object keep the order of
the text and are all kept, also when a name occurs twice. -/
inductive JValue where
  | null
  | bool (b : Bool)
  | number (text : GoString)
  | string (s : GoString)
  | array (items : List JValue)
  | object (members : List (GoString × JValue))

/-- Go `encoding/json.isSpace`: space, tab, carriage return, newline. -/
def isSpace (c : Byte) : Bool :=
  decide (c = 32) || decide (c = 9) || decide (c = 13) || decide (c = 10)

/-- A decimal digit. -/
def isDigit (c : Byte) : Bool := decide (48 ≤ c) && decide (c ≤ 57)

/-- The states of the scanner of `encoding/json` inside a number: `stateNeg`,
`state0`, `state1`, `stateDot`, `stateDot0`, `stateE`, `stateESign`, `stateE0`. -/
inductive NumState where
  | neg
  | zero
  | int
  | dot
  | frac
  | exp
  | expSign
  | expDigits
  deriving DecidableEq, Repr

/-- The next state of the scanner inside a number when the byte continues the
number, and `none` when it does not. -/
def numStep (st : NumState) (c : Byte) : Option NumState :=
  match st with
  | NumState.neg => if c = 48 then some NumState.zero else if isDigit c then some NumState.int else none
  | NumState.zero =>
    if c = 46 then some NumState.dot else if c = 101 ∨ c = 69 then some NumState.exp else none
  | NumState.int =>
    if isDigit c then some NumState.int
    else if c = 46 then some NumState.dot
    else if c = 101 ∨ c = 69 then some NumState.exp
    else none
  | NumState.dot => if isDigit c then some NumState.frac else none
  | NumState.frac =>
    if isDigit c then some NumState.frac else if c = 101 ∨ c = 69 then some NumState.exp else none
  | NumState.exp =>
    if c = 43 ∨ c = 45 then some NumState.expSign
    else if isDigit c then some NumState.expDigits
    else none
  | NumState.expSign => if isDigit c then some NumState.expDigits else none
  | NumState.expDigits => if isDigit c then some NumState.expDigits else none

/-- The states in which a number may end. -/
def numAccepting : NumState → Bool
  | NumState.zero => true
  | NumState.int => true
  | NumState.frac => true
  | NumState.expDigits => true
  | _ => false

/-- The value of a hex digit, and `none` for another byte (as in `getu4`). -/
def hexDigit (c : Byte) : Option Nat :=
  if 48 ≤ c ∧ c ≤ 57 then some (c.val - 48)
  else if 97 ≤ c ∧ c ≤ 102 then some (c.val - 97 + 10)
  else if 65 ≤ c ∧ c ≤ 70 then some (c.val - 65 + 10)
  else none

/-- Go `encoding/json.getu4` on the text after the backslash: the code unit of a
`uXXXX` escape, and `none` (the `-1` of the source) when the text is no such escape. -/
def getu4 (s : GoString) : Option Nat :=
  match s with
  | u :: a :: b :: c :: d :: _ =>
    if u = 117 then
      match hexDigit a, hexDigit b, hexDigit c, hexDigit d with
      | some x, some y, some z, some w => some (((x * 16 + y) * 16 + z) * 16 + w)
      | _, _, _, _ => none
    else none
  | _ => none

/-- The bytes of the replacement character U+FFFD. -/
def replacementChar : GoString := [239, 191, 189]

/-- Go `utf8.EncodeRune`: the UTF-8 bytes of a code point, those of U+FFFD for a
surrogate or a number above U+10FFFF. -/
def encodeRune (r : Nat) : GoString :=
  if r < 128 then [Fin.ofNat r]
  else if r < 2048 then [Fin.ofNat (192 + r / 64), Fin.ofNat (128 + r % 64)]
  else if (55296 ≤ r ∧ r < 57344) ∨ 1114111 < r then replacementChar
  else if r < 65536 then
    [Fin.ofNat (224 + r / 4096), Fin.ofNat (128 + r / 64 % 64), Fin.ofNat (128 + r % 64)]
  else
    [Fin.ofNat (240 + r / 262144), Fin.ofNat (128 + r / 4096 % 64), Fin.ofNat (128 + r / 64 % 64),
      Fin.ofNat (128 + r % 64)]

/-- A continuation byte of UTF-8, `0x80` to `0xBF`. -/
def isCont (c : Byte) : Bool := decide (128 ≤ c) && decide (c ≤ 191)

/-- The size that `utf8.DecodeRune` reports for a well-formed sequence of two to four
bytes that starts with `c` and goes on in `rest`, and `0` when there is none (then
`DecodeRune` reports `RuneError` with size 1). -/
def utf8Size (c : Byte) (rest : GoString) : Nat :=
  match rest with
  | c1 :: rest1 =>
    if 194 ≤ c ∧ c ≤ 223 then (if isCont c1 then 2 else 0)
    else
      match rest1 with
      | c2 :: rest2 =>
        if 224 ≤ c ∧ c ≤ 239 then
          if (decide (c = 224) && decide (160 ≤ c1) && decide (c1 ≤ 191) ||
              decide (c = 237) && decide (128 ≤ c1) && decide (c1 ≤ 159) ||
              decide (c ≠ 224) && decide (c ≠ 237) && isCont c1) && isCont c2 then 3
          else 0
        else
          match rest2 with
          | c3 :: _ =>
            if 240 ≤ c ∧ c ≤ 244 then
              if (decide (c = 240) && decide (144 ≤ c1) && decide (c1 ≤ 191) ||
                  decide (c = 244) && decide (128 ≤ c1) && decide (c1 ≤ 143) ||
                  decide (c ≠ 240) && decide (c ≠ 244) && isCont c1) && isCont c2 && isCont c3 then 4
              else 0
            else 0
          | [] => 0
      | [] => 0
  | [] => 0

/-- The byte that a one-letter escape stands for in `unquoteBytes`. -/
def escapedByte (e : Byte) : Byte :=
  if e = 98 then 8
  else if e = 102 then 12
  else if e = 110 then 10
  else if e = 114 then 13
  else if e = 116 then 9
  else e

/-- Go `encoding/json.unquoteBytes` on the text between the quotes of a string the
scanner accepted; `skip` bytes at the front were consumed with an earlier byte.  An
escape is replaced by what it stands for, a `uXXXX` escape by the UTF-8 of its code
point, two of them that form a surrogate pair by the UTF-8 of the pair, a lone
surrogate by U+FFFD; a byte that starts no well-formed UTF-8 sequence becomes
U+FFFD. -/
def unquoteFrom : Nat → GoString → GoString
  | _, [] => []
  | skip + 1, _ :: rest => unquoteFrom skip rest
  | 0, c :: rest =>
    if c = 92 then
      match rest with
      | [] => []
      | e :: rest1 =>
        if e = 117 then
          match getu4 rest with
          | none => []
          | some rr =>
            if 55296 ≤ rr ∧ rr < 57344 then
              match rest1.drop 4 with
              | b :: rest5 =>
                match getu4 rest5 with
                | some rr1 =>
                  if b = 92 ∧ rr < 56320 ∧ 56320 ≤ rr1 ∧ rr1 < 57344 then
                    encodeRune ((rr - 55296) * 1024 + (rr1 - 56320) + 65536) ++ unquoteFrom 11 rest
                  else replacementChar ++ unquoteFrom 5 rest
                | none => replacementChar ++ unquoteFrom 5 rest
              | [] => replacementChar ++ unquoteFrom 5 rest
            else encodeRune rr ++ unquoteFrom 5 rest
        else escapedByte e :: unquoteFrom 1 rest
    else if c < 128 then c :: unquoteFrom 0 rest
    else if utf8Size c rest = 0 then replacementChar ++ unquoteFrom 0 rest
    else c :: rest.take (utf8Size c rest - 1) ++ unquoteFrom (utf8Size c rest - 1) rest

/-- Go `encoding/json.unquoteBytes`, on the text between the quotes. -/
def unquote (raw : GoString) : GoString := unquoteFrom 0 raw

/-- An array or an object that the scanner is inside of: the items read so far, or
the members read so far and the name of the member being read, latest first. -/
inductive Frame where
  | arr (items : List JValue)
  | obj (members : List (GoString × JValue)) (key : GoString)

/-- Where the scanner of `encoding/json` is: the `state...` step function that comes
next, with the text read so far of the string, number or literal it is inside of. -/
inductive Phase where
  | beginValue
  | beginValueOrEmpty
  | beginStringOrEmpty
  | beginString
  | inString (isKey : Bool) (raw : GoString)
  | inStringEsc (isKey : Bool) (raw : GoString)
  | inStringEscU (isKey : Bool) (raw : GoString) (digits : Nat)
  | afterKey
  | inNumber (st : NumState) (text : GoString)
  | inLiteral (expected : GoString) (value : JValue)
  | endValue
  | endTop (value : JValue)

/-- The scanner together with the values built so far. -/
structure Scanner where
  phase : Phase
  stack : List Frame

/-- The constant `maxNestingDepth` of `encoding/json`. -/
def maxNestingDepth : Nat := 10000

/-- A value is complete: it is the top-level value, the next item of the array, or
the value of the member being read. -/
def completeValue (stack : List Frame) (v : JValue) : Scanner :=
  match stack with
  | [] => ⟨Phase.endTop v, []⟩
  | Frame.arr items :: rest => ⟨Phase.endValue, Frame.arr (v :: items) :: rest⟩
  | Frame.obj members key :: rest => ⟨Phase.endValue, Frame.obj ((key, v) :: members) [] :: rest⟩

/-- The scanner after a value (`stateEndValue`, `stateEndTop`): a comma, the closing
bracket of the array or object it is in, or white space. -/
def stepEnd (s : Scanner) (c : Byte) : Option Scanner :=
  if isSpace c then some s
  else
    match s.phase, s.stack with
    | Phase.endValue, Frame.arr items :: rest =>
      if c = 44 then some ⟨Phase.beginValue, s.stack⟩
      else if c = 93 then some (completeValue rest (JValue.array items.reverse))
      else none
    | Phase.endValue, Frame.obj members _ :: rest =>
      if c = 44 then some ⟨Phase.beginString, s.stack⟩
      else if c = 125 then some (completeValue rest (JValue.object members.reverse))
      else none
    | _, _ => none

/-- The scanner at the first byte of a value (`stateBeginValue`, white space apart). -/
def stepBegin (stack : List Frame) (c : Byte) : Option Scanner :=
  if c = 123 then
    if stack.length + 1 ≤ maxNestingDepth then some ⟨Phase.beginStringOrEmpty, Frame.obj [] [] :: stack⟩
    else none
  else if c = 91 then
    if stack.length + 1 ≤ maxNestingDepth then some ⟨Phase.beginValueOrEmpty, Frame.arr [] :: stack⟩
    else none
  else if c = 34 then some ⟨Phase.inString false [], stack⟩
  else if c = 45 then some ⟨Phase.inNumber NumState.neg [c], stack⟩
  else if c = 48 then some ⟨Phase.inNumber NumState.zero [c], stack⟩
  else if isDigit c then some ⟨Phase.inNumber NumState.int [c], stack⟩
  else if c = 116 then some ⟨Phase.inLiteral (lit "rue") (JValue.bool true), stack⟩
  else if c = 102 then some ⟨Phase.inLiteral (lit "alse") (JValue.bool false), stack⟩
  else if c = 110 then some ⟨Phase.inLiteral (lit "ull") JValue.null, stack⟩
  else none

/-- One byte through the scanner; `none` is a syntax error. -/
def step (s : Scanner) (c : Byte) : Option Scanner :=
  match s.phase with
  | Phase.beginValue => if isSpace c then some s else stepBegin s.stack c
  | Phase.beginValueOrEmpty =>
    if isSpace c then some s
    else if c = 93 then
      match s.stack with
      | Frame.arr _ :: rest => some (completeValue rest (JValue.array []))
      | _ => none
    else stepBegin s.stack c
  | Phase.beginStringOrEmpty =>
    if isSpace c then some s
    else if c = 125 then
      match s.stack with
      | Frame.obj _ _ :: rest => some (completeValue rest (JValue.object []))
      | _ => none
    else if c = 34 then some ⟨Phase.inString true [], s.stack⟩
    else none
  | Phase.beginString =>
    if isSpace c then some s
    else if c = 34 then some ⟨Phase.inString true [], s.stack⟩
    else none
  | Phase.inString isKey raw =>
    if c = 34 then
      if isKey then
        match s.stack with
        | Frame.obj members _ :: rest => some ⟨Phase.afterKey, Frame.obj members (unquote raw) :: rest⟩
        | _ => none
      else some (completeValue s.stack (JValue.string (unquote raw)))
    else if c = 92 then some ⟨Phase.inStringEsc isKey raw, s.stack⟩
    else if c < 32 then none
    else some ⟨Phase.inString isKey (raw ++ [c]), s.stack⟩
  | Phase.inStringEsc isKey raw =>
    if c ∈ ([98, 102, 110, 114, 116, 92, 47, 34] : List Byte) then
      some ⟨Phase.inString isKey (raw ++ [92, c]), s.stack⟩
    else if c = 117 then some ⟨Phase.inStringEscU isKey (raw ++ [92, c]) 4, s.stack⟩
    else none
  | Phase.inStringEscU isKey raw digits =>
    if ishex c then
      if digits ≤ 1 then some ⟨Phase.inString isKey (raw ++ [c]), s.stack⟩
      else some ⟨Phase.inStringEscU isKey (raw ++ [c]) (digits - 1), s.stack⟩
    else none
  | Phase.afterKey =>
    if isSpace c then some s
    else if c = 58 then some ⟨Phase.beginValue, s.stack⟩
    else none
  | Phase.inNumber st text =>
    match numStep st c with
    | some st2 => some ⟨Phase.inNumber st2 (text ++ [c]), s.stack⟩
    | none => if numAccepting st then stepEnd (completeValue s.stack (JValue.number text)) c else none
  | Phase.inLiteral expected value =>
    match expected with
    | [] => none
    | e :: rest =>
      if c = e then
        if rest = [] then some (completeValue s.stack value) else some ⟨Phase.inLiteral rest value, s.stack⟩
      else none
  | Phase.endValue => stepEnd s c
  | Phase.endTop _ => stepEnd s c

/-- The end of the text (`scanner.eof`): the top-level value must be complete. -/
def finish (s : Scanner) : Option JValue :=
  match s.phase, s.stack with
  | Phase.endTop v, _ => some v
  | Phase.inNumber st text, [] => if numAccepting st then some (JValue.number text) else none
  | _, _ => none

/-- The value a JSON text denotes, and `none` for a text that `checkValid` of
`encoding/json` rejects. -/
def parseJSON (data : GoString) : Option JValue :=
  (data.foldl (fun st c => st.bind (fun s => step s c)) (some ⟨Phase.beginValue, []⟩)).bind finish

/-- The three fields of a result struct, by their JSON names `data`, `paging`, `next`. -/
inductive Field where
  | data
  | paging
  | next
  deriving DecidableEq, Repr

/-- The letters `a` to `z` made capitals, other bytes kept: what `foldName` of
`encoding/json` does to ASCII.  A name that holds a byte outside ASCII folds to
something outside ASCII there as here, so comparing the result with the folded name
of a field, which is ASCII without `K` or `S`, gives here what it gives there. -/
def foldKey (key : GoString) : GoString :=
  key.map (fun c => if 97 ≤ c ∧ c ≤ 122 then c - 32 else c)

/-- The field of a result struct that a member name of the text selects: the field
with exactly this name, else the field whose name is equal to it under folding, else
none (the member is skipped). -/
def fieldOf (key : GoString) : Option Field :=
  if key = lit "data" then some Field.data
  else if key = lit "paging" then some Field.paging
  else if key = lit "next" then some Field.next
  else if foldKey key = lit "DATA" then some Field.data
  else if foldKey key = lit "PAGING" then some Field.paging
  else if foldKey key = lit "NEXT" then some Field.next
  else none

/-- The fields of the four result structs, which differ in the record type only. -/
structure Envelope (T : Type) where
  Data : List T
  Paging : ResultPaging
  Next : GoString

/-- What `encoding/json` does below a result struct, and the error values it makes:
the zero value of the record type, the decoding of a JSON value into a record and
into a `ResultPaging` (the new value, and the first error saved on the way), the
error for a text that is not JSON, and the `UnmarshalTypeError` for a JSON value
that does not fit the field of the given name. -/
structure Decoders (T : Type) where
  zero : T
  decodeRecord : JValue → T → T × Option GoError
  decodePaging : JValue → ResultPaging → ResultPaging × Option GoError
  invalidText : GoString → GoError
  wrongType : JValue → GoString → GoError

/-- The error that `decodeState.saveError` keeps: the first one. -/
def firstError (saved new : Option GoError) : Option GoError :=
  match saved with
  | some e => some e
  | none => new

/-- The loop of `decodeState.array` into a slice of records: item `i` is decoded into
element `i` of the slice, a fresh zero record when the slice was shorter, and the
slice gets the length of the array. -/
def decodeElements {T : Type} (lib : Decoders T) : List JValue → List T → List T × Option GoError
  | [], _ => ([], none)
  | v :: vs, old =>
    let x := lib.decodeRecord v (old.headD lib.zero)
    let xs := decodeElements lib vs old.tail
    (x.1 :: xs.1, firstError x.2 xs.2)

/-- One member of the top-level object through `decodeState.object`: a member that
selects no field is skipped; `data` takes an array (every item becomes a record) or
`null` (the slice becomes nil), and another value is a type error that leaves it as
it is; `next` takes a string, ignores `null`, and another value is a type error. -/
def decodeMember {T : Type} (lib : Decoders T) (st : Envelope T × Option GoError)
    (m : GoString × JValue) : Envelope T × Option GoError :=
  match fieldOf m.1 with
  | none => st
  | some Field.data =>
    match m.2 with
    | JValue.array items =>
      let r := decodeElements lib items st.1.Data
      ({ st.1 with Data := r.1 }, firstError st.2 r.2)
    | JValue.null => ({ st.1 with Data := [] }, st.2)
    | v => (st.1, firstError st.2 (some (lib.wrongType v (lit "data"))))
  | some Field.paging =>
    let r := lib.decodePaging m.2 st.1.Paging
    ({ st.1 with Paging := r.1 }, firstError st.2 r.2)
  | some Field.next =>
    match m.2 with
    | JValue.string s => ({ st.1 with Next := s }, st.2)
    | JValue.null => st
    | v => (st.1, firstError st.2 (some (lib.wrongType v (lit "next"))))

/-- The decoding of a JSON value into a result struct: `null` leaves it as it is, an
object is decoded member by member in the order of the text, and any other value is
a type error. -/
def decodeEnvelope {T : Type} (lib : Decoders T) (v : JValue) (dst : Envelope T) :
    Envelope T × Option GoError :=
  match v with
  | JValue.null => (dst, none)
  | JValue.object members => members.foldl (decodeMember lib) (dst, none)
  | v => (dst, some (lib.wrongType v []))

/-- Go `json.Unmarshal(data, result)` for a pointer to a result struct: the text is
checked first, then decoded. -/
def unmarshalEnvelope {T : Type} (lib : Decoders T) (data : GoString) (dst : Envelope T) :
    Envelope T × Option GoError :=
  match parseJSON data with
  | none => (dst, some (lib.invalidText data))
  | some v => decodeEnvelope lib v dst

/-- Go `json.Unmarshal(data, result)` for `result *ThreatDescriptorResults`. -/
def unmarshalThreatDescriptorResults (lib : Decoders ThreatDescriptor) : Unmarshal ThreatDescriptorResults :=
  fun data result =>
    let r := unmarshalEnvelope lib data ⟨result.Data, result.Paging, result.Next⟩
    (⟨r.1.Data, r.1.Paging, r.1.Next⟩, r.2)

/-- Go `json.Unmarshal(data, result)` for `result *MalwareResults`. -/
def unmarshalMalwareResults (lib : Decoders MalwareResult) : Unmarshal MalwareResults :=
  fun data result =>
    let r := unmarshalEnvelope lib data ⟨result.Data, result.Paging, result.Next⟩
    (⟨r.1.Data, r.1.Paging, r.1.Next⟩, r.2)

/-- Go `json.Unmarshal(data, result)` for `result *MalwareFamiliesResults`. -/
def unmarshalMalwareFamiliesResults (lib : Decoders MalwareFamilyResult) : Unmarshal MalwareFamiliesResults :=
  fun data result =>
    let r := unmarshalEnvelope lib data ⟨result.Data, result.Paging, result.Next⟩
    (⟨r.1.Data, r.1.Paging, r.1.Next⟩, r.2)

/-- Go `json.Unmarshal(data, result)` for `result *TEOwnersResults`. -/
def unmarshalTEOwnersResults (lib : Decoders TEOwner) : Unmarshal TEOwnersResults :=
  fun data result =>
    let r := unmarshalEnvelope lib data ⟨result.Data, result.Paging, result.Next⟩
    (⟨r.1.Data, r.1.Paging, r.1.Next⟩, r.2)

/-- Whether a member name is `data` in some letter case. -/
def namesData (key : GoString) : Bool := decide (foldKey key = lit "DATA")

/-- The length of the array that the last member named `data`, in any letter case,
of the top-level object holds; `0` when there is no such member or it holds `null`. -/
def lastDataLen (members : List (GoString × JValue)) : Nat :=
  match (members.filter (fun m => namesData m.1)).getLast? with
  | some (_, JValue.array items) => items.length
  | _ => 0

/-- The number of records that a JSON text announces: `lastDataLen` of its top-level
object, `0` for a text that is no object. -/
def dataLen (data : GoString) : Nat :=
  match parseJSON data with
  | some (JValue.object members) => lastDataLen members
  | _ => 0

/-- The lengths of the `data` arrays of a JSON text: of the arrays held by the
members of its top-level object whose name is `data`, letter for letter. -/
def dataArrayLengths (data : GoString) : List Nat :=
  match parseJSON data with
  | some (JValue.object members) =>
    members.filterMap (fun m =>
      if m.1 = lit "data" then
        match m.2 with
        | JValue.array items => some items.length
        | _ => none
      else none)
  | _ => []

/-- A sample of the library below the result struct: it decodes every record and
every paging value the way `encoding/json` decodes the empty object, leaving the
destination as it is without error, and its errors have a fixed text. -/
def sampleDecoders {T : Type} (zero : T) : Decoders T where
  zero := zero
  decodeRecord := fun _ r => (r, none)
  decodePaging := fun _ p => (p, none)
  invalidText := fun _ => ⟨lit "invalid character"⟩
  wrongType := fun _ _ => ⟨lit "json: cannot unmarshal"⟩

/-- The zero value `TEOwner{}`. -/
def TEOwner.zero : TEOwner := ⟨[], [], []⟩

/-- The zero value `ThreatDescriptor{}`. -/
def ThreatDescriptor.zero : ThreatDescriptor :=
  ⟨[], ⟨[], [], []⟩, TEOwner.zero, [], [], [], [], [], [], [], 0, [], [], []⟩

/-- The zero value `MalwareResult{}`. -/
def MalwareResult.zero : MalwareResult :=
  ⟨[], [], [], [], [], [], [], [], [], [], [], [], [], 0, [], [], [], []⟩

/-- The zero value `MalwareFamilyResult{}`. -/
def MalwareFamilyResult.zero : MalwareFamilyResult := ⟨[], [], [], [], [], [], [], 0, 0⟩

/-! ## Escaping and unescaping -/

theorem shouldEscape_special :
    shouldEscape 32 Encoding.encodeQueryComponent = true ∧
    shouldEscape 37 Encoding.encodeQueryComponent = true ∧
    shouldEscape 43 Encoding.encodeQueryComponent = true ∧
    shouldEscape 38 Encoding.encodeQueryComponent = true ∧
    shouldEscape 61 Encoding.encodeQueryComponent = true ∧
    shouldEscape 59 Encoding.encodeQueryComponent = true := by
  decide

theorem escapeCounts_fold (s : GoString) : ∀ a b : Nat,
    ((s.foldl (escapeCountStep Encoding.encodeQueryComponent) (a, b)).1 = 0 ↔
      a = 0 ∧ ∀ c ∈ s, c ≠ 32) ∧
    ((s.foldl (escapeCountStep Encoding.encodeQueryComponent) (a, b)).2 = 0 ↔
      b = 0 ∧ ∀ c ∈ s, shouldEscape c Encoding.encodeQueryComponent = true → c = 32) := by
  induction s with
  | nil => intro a b; simp
  | cons c s ih =>
    intro a b
    simp only [List.foldl_cons, List.mem_cons, forall_eq_or_imp]
    by_cases hc : shouldEscape c Encoding.encodeQueryComponent = true
    · by_cases h32 : c = 32
      · have hstep : escapeCountStep Encoding.encodeQueryComponent (a, b) c = (a + 1, b) := by
          subst h32
          simp [escapeCountStep, hc]
        rw [hstep, (ih (a + 1) b).1, (ih (a + 1) b).2]
        simp [h32]
      · have hstep : escapeCountStep Encoding.encodeQueryComponent (a, b) c = (a, b + 1) := by
          simp [escapeCountStep, hc, h32]
        rw [hstep, (ih a (b + 1)).1, (ih a (b + 1)).2]
        simp [h32, hc]
    · have hne : c ≠ 32 := by
        intro h; subst h; exact hc shouldEscape_special.1
      have hstep : escapeCountStep Encoding.encodeQueryComponent (a, b) c = (a, b) := by
        simp [escapeCountStep, hc]
      rw [hstep, (ih a b).1, (ih a b).2]
      simp [hne, hc]

theorem flatMap_escapeWrite_id (s : GoString)
    (h : ∀ c ∈ s, shouldEscape c Encoding.encodeQueryComponent = false) :
    s.flatMap (escapeWrite Encoding.encodeQueryComponent) = s := by
  induction s with
  | nil => rfl
  | cons c s ih =>
    have hc := h c (List.mem_cons_self _ _)
    have hne : c ≠ 32 := by
      intro h32; subst h32; rw [shouldEscape_special.1] at hc; cases hc
    rw [List.flatMap_cons, ih (fun x hx => h x (List.mem_cons_of_mem _ hx))]
    simp [escapeWrite, hc, hne]

theorem map_plus_eq_flatMap (s : GoString)
    (h : ∀ c ∈ s, shouldEscape c Encoding.encodeQueryComponent = true → c = 32) :
    s.map (fun c => if c = 32 then 43 else c) = s.flatMap (escapeWrite Encoding.encodeQueryComponent) := by
  induction s with
  | nil => rfl
  | cons c s ih =>
    rw [List.map_cons, List.flatMap_cons, ih (fun x hx => h x (List.mem_cons_of_mem _ hx))]
    by_cases h32 : c = 32
    · simp [escapeWrite, h32]
    · have : shouldEscape c Encoding.encodeQueryComponent = false := by
        by_contra hne
        exact h32 (h c (List.mem_cons_self _ _) (by simpa using hne))
      simp [escapeWrite, h32, this]

/-- The result of `QueryEscape` is the bytewise escaping, whichever of the three
branches of `escape` produced it. -/
theorem queryEscape_eq (s : GoString) :
    queryEscape s = s.flatMap (escapeWrite Encoding.encodeQueryComponent) := by
  unfold queryEscape escape escapeCounts
  have hf := escapeCounts_fold s 0 0
  simp only [true_and] at hf
  by_cases h1 : (s.foldl (escapeCountStep Encoding.encodeQueryComponent) (0, 0)).2 = 0
  · have h2 := hf.2.1 h1
    by_cases h0 : (s.foldl (escapeCountStep Encoding.encodeQueryComponent) (0, 0)).1 = 0
    · have h3 := hf.1.1 h0
      simp only [h0, h1, and_self, if_true]
      symm
      apply flatMap_escapeWrite_id
      intro c hc
      by_contra hne
      exact h3 c hc (h2 c hc (by simpa using hne))
    · simp only [h0, h1, false_and, if_false, if_true]
      exact map_plus_eq_flatMap s h2
  · simp only [h1, and_false, if_false]


theorem upperhex_facts : ∀ i : Fin 16,
    ishex (upperhex i.val) = true ∧ unhex (upperhex i.val) = Fin.ofNat i.val ∧
      upperhex i.val ≠ 38 ∧ upperhex i.val ≠ 61 ∧ upperhex i.val ≠ 59 := by
  decide

theorem nibble_hi (c : Byte) : c.val >>> 4 < 16 := by
  rw [Nat.shiftRight_eq_div_pow]; have := c.isLt; omega

theorem nibble_lo (c : Byte) : c.val &&& 15 < 16 := by
  have h := Nat.and_pow_two_sub_one_eq_mod c.val 4
  norm_num at h
  rw [h]; omega

theorem nibble_join (c : Byte) :
    ((Fin.ofNat (c.val >>> 4) : Byte) <<< (4 : Byte)) ||| (Fin.ofNat (c.val &&& 15) : Byte) = c := by
  have h := Nat.and_pow_two_sub_one_eq_mod c.val 4
  norm_num at h
  have hc := c.isLt
  apply Fin.ext
  show (((c.val >>> 4) % 256) <<< (4 % 256) % 256 ||| ((c.val &&& 15) % 256)) % 256 = c.val
  rw [h, Nat.shiftRight_eq_div_pow, Nat.shiftLeft_eq]
  have h2 : (c.val / 2 ^ 4 % 256 * 2 ^ (4 % 256)) % 256 = 2 ^ 4 * (c.val / 16) := by
    norm_num; omega
  have h3 : c.val % 16 % 256 = c.val % 16 := by omega
  rw [h2, h3, ← Nat.mul_add_lt_is_or (by omega)]
  omega

theorem unhex_escaped (c : Byte) :
    (unhex (upperhex (c.val >>> 4)) <<< (4 : Byte)) ||| unhex (upperhex (c.val &&& 15)) = c := by
  have h1 := (upperhex_facts ⟨c.val >>> 4, nibble_hi c⟩).2.1
  have h2 := (upperhex_facts ⟨c.val &&& 15, nibble_lo c⟩).2.1
  simp only at h1 h2
  rw [h1, h2]
  exact nibble_join c

theorem unescapeScan_percent (a b : Byte) (r : GoString) (n : Nat) (hp : Bool) :
    unescapeScan (37 :: a :: b :: r) n hp =
      if ishex a && ishex b then unescapeScan r (n + 1) hp
      else Except.error (UrlError.escapeError [37, a, b]) := by
  conv_lhs => rw [unescapeScan.eq_def]
  simp

theorem unescapeScan_plus (r : GoString) (n : Nat) (hp : Bool) :
    unescapeScan (43 :: r) n hp = unescapeScan r n true := by
  conv_lhs => rw [unescapeScan.eq_def]
  simp

theorem unescapeScan_other (c : Byte) (r : GoString) (n : Nat) (hp : Bool) (h1 : c ≠ 37) (h2 : c ≠ 43) :
    unescapeScan (c :: r) n hp = unescapeScan r n hp := by
  conv_lhs => rw [unescapeScan.eq_def]
  simp [h1, h2]

theorem unescapeBuild_percent (a b : Byte) (r : GoString) :
    unescapeBuild (37 :: a :: b :: r) = ((unhex a <<< (4 : Byte)) ||| unhex b) :: unescapeBuild r := by
  conv_lhs => rw [unescapeBuild.eq_def]
  simp

theorem unescapeBuild_plus (r : GoString) : unescapeBuild (43 :: r) = 32 :: unescapeBuild r := by
  conv_lhs => rw [unescapeBuild.eq_def]
  simp

theorem unescapeBuild_other (c : Byte) (r : GoString) (h1 : c ≠ 37) (h2 : c ≠ 43) :
    unescapeBuild (c :: r) = c :: unescapeBuild r := by
  conv_lhs => rw [unescapeBuild.eq_def]
  simp [h1, h2]

/-- The counters of the first loop of `unescape` only grow. -/
theorem unescapeScan_mono : ∀ (k : Nat) (t : GoString) (n : Nat) (hp : Bool) (n2 : Nat) (hp2 : Bool),
    t.length ≤ k → unescapeScan t n hp = Except.ok (n2, hp2) → n ≤ n2 ∧ (hp = true → hp2 = true) := by
  intro k
  induction k with
  | zero =>
    intro t n hp n2 hp2 hk h
    have : t = [] := List.length_eq_zero.mp (Nat.le_zero.mp hk)
    subst this
    simp only [unescapeScan, Except.ok.injEq, Prod.mk.injEq] at h
    obtain ⟨rfl, rfl⟩ := h
    exact ⟨le_refl _, id⟩
  | succ k ih =>
    intro t n hp n2 hp2 hk h
    match t, hk, h with
    | [], _, h =>
      simp only [unescapeScan, Except.ok.injEq, Prod.mk.injEq] at h
      obtain ⟨rfl, rfl⟩ := h
      exact ⟨le_refl _, id⟩
    | c :: r, hk, h =>
      by_cases h37 : c = 37
      · subst h37
        match r, hk, h with
        | [], _, h => simp [unescapeScan] at h
        | [a], _, h => simp [unescapeScan] at h
        | a :: b :: r2, hk, h =>
          rw [unescapeScan_percent] at h
          by_cases hx : (ishex a && ishex b) = true
          · rw [if_pos hx] at h
            have := ih r2 (n + 1) hp n2 hp2 (by simp only [List.length_cons] at hk; omega) h
            exact ⟨by omega, this.2⟩
          · rw [if_neg hx] at h; cases h
      · by_cases h43 : c = 43
        · subst h43
          rw [unescapeScan_plus] at h
          have := ih r n true n2 hp2 (by simp only [List.length_cons] at hk; omega) h
          exact ⟨this.1, fun _ => this.2 rfl⟩
        · rw [unescapeScan_other c r n hp h37 h43] at h
          exact ih r n hp n2 hp2 (by simp only [List.length_cons] at hk; omega) h

/-- When the first loop of `unescape` saw no `%` and no `+`, the second loop would
return the string itself: the early return of `unescape` is no special case. -/
theorem unescapeBuild_of_scan_zero : ∀ (t : GoString) (n : Nat) (hp : Bool),
    unescapeScan t n hp = Except.ok (0, false) → unescapeBuild t = t := by
  intro t
  induction t with
  | nil => intro _ _ _; rfl
  | cons c r ih =>
    intro n hp h
    by_cases h37 : c = 37
    · subst h37
      match r, h with
      | [], h => simp [unescapeScan] at h
      | [a], h => simp [unescapeScan] at h
      | a :: b :: r2, h =>
        rw [unescapeScan_percent] at h
        by_cases hx : (ishex a && ishex b) = true
        · rw [if_pos hx] at h
          have := (unescapeScan_mono r2.length r2 (n + 1) hp 0 false (le_refl _) h).1
          omega
        · rw [if_neg hx] at h; cases h
    · by_cases h43 : c = 43
      · subst h43
        rw [unescapeScan_plus] at h
        have := (unescapeScan_mono r.length r n true 0 false (le_refl _) h).2 rfl
        cases this
      · rw [unescapeScan_other c r n hp h37 h43] at h
        rw [unescapeBuild_other c r h37 h43, ih n hp h]

theorem queryUnescape_of_scan (t : GoString) (r : Nat × Bool)
    (h : unescapeScan t 0 false = Except.ok r) : queryUnescape t = Except.ok (unescapeBuild t) := by
  unfold queryUnescape
  rw [h]
  obtain ⟨n, hp⟩ := r
  by_cases hz : n = 0 ∧ hp = false
  · obtain ⟨rfl, rfl⟩ := hz
    simp only [and_self, if_true]
    rw [unescapeBuild_of_scan_zero t 0 false h]
  · simp only [hz, if_false]

theorem escapeWrite_cases (c : Byte) :
    (c = 32 ∧ escapeWrite Encoding.encodeQueryComponent c = [43]) ∨
    (c ≠ 32 ∧ escapeWrite Encoding.encodeQueryComponent c =
        [37, upperhex (c.val >>> 4), upperhex (c.val &&& 15)]) ∨
    (c ≠ 32 ∧ c ≠ 37 ∧ c ≠ 43 ∧ c ≠ 38 ∧ c ≠ 61 ∧ c ≠ 59 ∧
      escapeWrite Encoding.encodeQueryComponent c = [c]) := by
  by_cases h32 : c = 32
  · left; exact ⟨h32, by simp [escapeWrite, h32]⟩
  · by_cases hs : shouldEscape c Encoding.encodeQueryComponent = true
    · right; left; exact ⟨h32, by simp [escapeWrite, h32, hs]⟩
    · right; right
      have hn : ∀ d : Byte, shouldEscape d Encoding.encodeQueryComponent = true → c ≠ d := by
        intro d hd hcd; subst hcd; exact hs hd
      have sp := shouldEscape_special
      exact ⟨h32, hn 37 sp.2.1, hn 43 sp.2.2.1, hn 38 sp.2.2.2.1, hn 61 sp.2.2.2.2.1, hn 59 sp.2.2.2.2.2,
        by simp [escapeWrite, h32, hs]⟩

theorem unescapeScan_escaped (s : GoString) : ∀ (n : Nat) (hp : Bool),
    ∃ r, unescapeScan (s.flatMap (escapeWrite Encoding.encodeQueryComponent)) n hp = Except.ok r := by
  induction s with
  | nil => intro n hp; exact ⟨(n, hp), rfl⟩
  | cons c s ih =>
    intro n hp
    rw [List.flatMap_cons]
    rcases escapeWrite_cases c with ⟨_, h⟩ | ⟨_, h⟩ | ⟨_, h37, h43, _, _, _, h⟩
    · rw [h]; simp only [List.singleton_append, unescapeScan_plus]; exact ih n true
    · rw [h]
      simp only [List.cons_append, List.nil_append, unescapeScan_percent]
      have h1 := (upperhex_facts ⟨c.val >>> 4, nibble_hi c⟩).1
      have h2 := (upperhex_facts ⟨c.val &&& 15, nibble_lo c⟩).1
      simp only at h1 h2
      simp only [h1, h2, Bool.and_self, if_true]
      exact ih (n + 1) hp
    · rw [h]; simp only [List.singleton_append]
      rw [unescapeScan_other c _ n hp h37 h43]; exact ih n hp

theorem unescapeBuild_escaped (s : GoString) :
    unescapeBuild (s.flatMap (escapeWrite Encoding.encodeQueryComponent)) = s := by
  induction s with
  | nil => rfl
  | cons c s ih =>
    rw [List.flatMap_cons]
    rcases escapeWrite_cases c with ⟨h32, h⟩ | ⟨_, h⟩ | ⟨_, h37, h43, _, _, _, h⟩
    · rw [h]; simp only [List.singleton_append, unescapeBuild_plus, ih, h32]
    · rw [h]
      simp only [List.cons_append, List.nil_append, unescapeBuild_percent, ih, unhex_escaped]
    · rw [h]; simp only [List.singleton_append]
      rw [unescapeBuild_other c _ h37 h43, ih]

/-- Round trip of one string: `QueryUnescape(QueryEscape(s))` is `s`, without error. -/
theorem queryUnescape_queryEscape (s : GoString) : queryUnescape (queryEscape s) = Except.ok s := by
  rw [queryEscape_eq]
  obtain ⟨r, hr⟩ := unescapeScan_escaped s 0 false
  rw [queryUnescape_of_scan _ r hr, unescapeBuild_escaped]

/-- An escaped string holds none of the separators `&`, `=`, `;`. -/
theorem queryEscape_clean (s : GoString) :
    (38 : Byte) ∉ queryEscape s ∧ (61 : Byte) ∉ queryEscape s ∧ (59 : Byte) ∉ queryEscape s := by
  rw [queryEscape_eq]
  have key : ∀ x ∈ s.flatMap (escapeWrite Encoding.encodeQueryComponent), x ≠ 38 ∧ x ≠ 61 ∧ x ≠ 59 := by
    intro x hx
    rw [List.mem_flatMap] at hx
    obtain ⟨c, _, hxc⟩ := hx
    rcases escapeWrite_cases c with ⟨_, h⟩ | ⟨_, h⟩ | ⟨_, _, _, h38, h61, h59, h⟩
    · rw [h] at hxc; simp only [List.mem_singleton] at hxc; subst hxc; decide
    · rw [h] at hxc
      have h1 := (upperhex_facts ⟨c.val >>> 4, nibble_hi c⟩).2.2
      have h2 := (upperhex_facts ⟨c.val &&& 15, nibble_lo c⟩).2.2
      simp only at h1 h2
      simp only [List.mem_cons, List.mem_singleton, List.not_mem_nil, or_false] at hxc
      rcases hxc with rfl | rfl | rfl
      · decide
      · exact h1
      · exact h2
    · rw [h] at hxc; simp only [List.mem_singleton] at hxc; subst hxc; exact ⟨h38, h61, h59⟩
  exact ⟨fun h => (key _ h).1 rfl, fun h => (key _ h).2.1 rfl, fun h => (key _ h).2.2 rfl⟩

/-! ## Decoding an encoded query -/

theorem cut_append (a b : GoString) (sep : Byte) (h : sep ∉ a) :
    cut (a ++ sep :: b) sep = (a, b, true) := by
  induction a with
  | nil => simp [cut]
  | cons c a ih =>
    have hc : c ≠ sep := fun e => h (by simp [e])
    have ha : sep ∉ a := fun e => h (List.mem_cons_of_mem _ e)
    simp [cut, hc, ih ha]

theorem cut_none (a : GoString) (sep : Byte) (h : sep ∉ a) : cut a sep = (a, [], false) := by
  induction a with
  | nil => simp [cut]
  | cons c a ih =>
    have hc : c ≠ sep := fun e => h (by simp [e])
    have ha : sep ∉ a := fun e => h (List.mem_cons_of_mem _ e)
    simp [cut, hc, ih ha]

theorem segment_clean (p : GoString × GoString) :
    (38 : Byte) ∉ segment p ∧ (59 : Byte) ∉ segment p ∧ segment p ≠ [] := by
  have h1 := queryEscape_clean p.1
  have h2 := queryEscape_clean p.2
  refine ⟨?_, ?_, ?_⟩
  · simp [segment, h1.1, h2.1]
  · simp [segment, h1.2.2, h2.2.2]
  · simp [segment]

theorem cut_segment (p : GoString × GoString) :
    cut (segment p) 61 = (queryEscape p.1, queryEscape p.2, true) :=
  cut_append _ _ _ (queryEscape_clean p.1).2.1

theorem parseQueryLoop_nil (fuel : Nat) (m : Values) (err : Option UrlError) :
    parseQueryLoop fuel m err [] = (m, err) := by
  cases fuel <;> simp [parseQueryLoop]

/-- One round of the loop of `parseQuery` on a query that starts with an encoded pair. -/
theorem parseQueryLoop_segment (fuel : Nat) (m : Values) (p : GoString × GoString) (rest : GoString)
    (hcut : cut (segment p ++ rest) 38 = (segment p, (cut (segment p ++ rest) 38).2.1, (cut (segment p ++ rest) 38).2.2)) :
    parseQueryLoop (fuel + 1) m none (segment p ++ rest) =
      parseQueryLoop fuel (Values.add m p.1 p.2) none (cut (segment p ++ rest) 38).2.1 := by
  have hs := segment_clean p
  have hne : segment p ++ rest ≠ [] := by simp [hs.2.2]
  rw [parseQueryLoop]
  simp only [hne, if_false]
  have h1 : (cut (segment p ++ rest) 38).1 = segment p := by rw [hcut]
  rw [h1]
  simp only [hs.2.1, hs.2.2, if_false, cut_segment, queryUnescape_queryEscape]

theorem parseQueryLoop_pairs : ∀ (ps : List (GoString × GoString)) (p : GoString × GoString) (m : Values)
    (fuel : Nat), (joinAmp ((p :: ps).map segment)).length < fuel →
    parseQueryLoop fuel m none (joinAmp ((p :: ps).map segment)) =
      ((p :: ps).foldl (fun m kv => Values.add m kv.1 kv.2) m, none) := by
  intro ps
  induction ps with
  | nil =>
    intro p m fuel hf
    obtain ⟨f, rfl⟩ : ∃ f, fuel = f + 1 := ⟨fuel - 1, by omega⟩
    have hj : joinAmp ([p].map segment) = segment p ++ [] := by simp [joinAmp]
    rw [hj]
    have hc : cut (segment p ++ []) 38 = (segment p, [], false) := by
      rw [List.append_nil]; exact cut_none _ _ (segment_clean p).1
    rw [parseQueryLoop_segment f m p [] (by rw [hc]), hc]
    simp [parseQueryLoop_nil]
  | cons q qs ih =>
    intro p m fuel hf
    obtain ⟨f, rfl⟩ : ∃ f, fuel = f + 1 := ⟨fuel - 1, by omega⟩
    have hj : joinAmp ((p :: q :: qs).map segment) = segment p ++ 38 :: joinAmp ((q :: qs).map segment) := by
      simp [joinAmp]
    rw [hj] at hf ⊢
    have hc : cut (segment p ++ 38 :: joinAmp ((q :: qs).map segment)) 38 =
        (segment p, joinAmp ((q :: qs).map segment), true) := cut_append _ _ _ (segment_clean p).1
    rw [parseQueryLoop_segment f m p _ (by rw [hc]), hc]
    simp only [List.foldl_cons]
    have := ih q (Values.add m p.1 p.2) f (by simp only [List.length_append, List.length_cons] at hf; omega)
    rw [this]
    simp only [List.foldl_cons]

/-- Decoding what was encoded from a list of pairs adds the pairs back in order, with no error. -/
theorem parseQuery_joinAmp (ps : List (GoString × GoString)) :
    parseQuery (joinAmp (ps.map segment)) = (ps.foldl (fun m kv => Values.add m kv.1 kv.2) [], none) := by
  unfold parseQuery
  cases ps with
  | nil => simp [joinAmp, parseQueryLoop]
  | cons p ps => exact parseQueryLoop_pairs ps p [] _ (Nat.lt_succ_self _)

theorem writePair_nil (p : GoString × GoString) : writePair [] p = segment p := by
  simp [writePair, segment]

theorem writePair_of_ne (buf : GoString) (h : buf ≠ []) (p : GoString × GoString) :
    writePair buf p = buf ++ 38 :: segment p := by
  have : buf.length > 0 := List.length_pos.mpr h
  simp [writePair, segment, this]

theorem foldl_writePair_of_ne (ps : List (GoString × GoString)) : ∀ (buf : GoString), buf ≠ [] →
    ps.foldl writePair buf = buf ++ (ps.map segment).flatMap (fun t => 38 :: t) := by
  induction ps with
  | nil => intro buf _; simp
  | cons p ps ih =>
    intro buf h
    rw [List.foldl_cons, writePair_of_ne buf h, ih _ (by simp)]
    simp

theorem foldl_writePair (ps : List (GoString × GoString)) :
    ps.foldl writePair [] = joinAmp (ps.map segment) := by
  cases ps with
  | nil => rfl
  | cons p ps =>
    rw [List.foldl_cons, writePair_nil, foldl_writePair_of_ne ps _ (by simp [segment])]
    simp [joinAmp]

theorem foldl_keys_writePair (f : GoString → List GoString) (keys : List GoString) : ∀ (buf : GoString),
    keys.foldl
      (fun buf k =>
        (f k).foldl
          (fun buf value =>
            (if buf.length > 0 then buf ++ [38] else buf) ++ queryEscape k ++ [61] ++ queryEscape value)
          buf)
      buf =
    (keys.flatMap (fun k => (f k).map (fun value => (k, value)))).foldl writePair buf := by
  induction keys with
  | nil => intro buf; rfl
  | cons k keys ih =>
    intro buf
    rw [List.foldl_cons, List.flatMap_cons, List.foldl_append, ih, List.foldl_map]
    rfl

/-- The string `Values.Encode` builds in its buffer is the `&`-join of its pairs. -/
theorem encode_eq (v : Values) : Values.encode v = joinAmp ((Values.pairs v).map segment) := by
  unfold Values.encode
  by_cases h : v.length = 0
  · have : v = [] := List.length_eq_zero.mp h
    subst this
    rfl
  · simp only [h, if_false]
    rw [foldl_keys_writePair (Values.get v), foldl_writePair]
    rfl

/-! ### The order on strings -/

theorem strLe_refl (a : GoString) : strLe a a = true := by
  induction a with
  | nil => rfl
  | cons x a ih => simp [strLe, ih]

theorem strLe_total (a : GoString) : ∀ b : GoString, strLe a b = true ∨ strLe b a = true := by
  induction a with
  | nil => intro b; left; cases b <;> rfl
  | cons x a ih =>
    intro b
    cases b with
    | nil => right; rfl
    | cons y b =>
      simp only [strLe, Bool.or_eq_true, Bool.and_eq_true, decide_eq_true_eq]
      rcases lt_trichotomy x y with h | h | h
      · left; left; exact h
      · rcases ih b with h2 | h2
        · left; right; exact ⟨h, h2⟩
        · right; right; exact ⟨h.symm, h2⟩
      · right; left; exact h

theorem strLe_trans (a : GoString) : ∀ b c : GoString, strLe a b = true → strLe b c = true → strLe a c = true := by
  induction a with
  | nil => intro b c _ _; cases c <;> rfl
  | cons x a ih =>
    intro b c hab hbc
    cases b with
    | nil => simp [strLe] at hab
    | cons y b =>
      cases c with
      | nil => simp [strLe] at hbc
      | cons z c =>
        simp only [strLe, Bool.or_eq_true, Bool.and_eq_true, decide_eq_true_eq] at hab hbc ⊢
        rcases hab with h1 | ⟨h1, h1r⟩
        · rcases hbc with h2 | ⟨h2, _⟩
          · left; exact lt_trans h1 h2
          · left; rw [← h2]; exact h1
        · rcases hbc with h2 | ⟨h2, h2r⟩
          · left; rw [h1]; exact h2
          · right; exact ⟨h1.trans h2, ih b c h1r h2r⟩

theorem strLe_antisymm (a : GoString) : ∀ b : GoString, strLe a b = true → strLe b a = true → a = b := by
  induction a with
  | nil => intro b _ h; cases b with
    | nil => rfl
    | cons y b => simp [strLe] at h
  | cons x a ih =>
    intro b hab hba
    cases b with
    | nil => simp [strLe] at hab
    | cons y b =>
      simp only [strLe, Bool.or_eq_true, Bool.and_eq_true, decide_eq_true_eq] at hab hba
      rcases hab with h1 | ⟨h1, h1r⟩
      · rcases hba with h2 | ⟨h2, _⟩
        · exact absurd h1 (lt_asymm h2)
        · rw [h2] at h1; exact absurd h1 (lt_irrefl _)
      · rcases hba with h2 | ⟨_, h2r⟩
        · rw [h1] at h2; exact absurd h2 (lt_irrefl _)
        · rw [h1, ih b h1r h2r]

instance strLe_isTotal : IsTotal GoString (fun a b => strLe a b = true) := ⟨strLe_total⟩

instance strLe_isTrans : IsTrans GoString (fun a b => strLe a b = true) := ⟨strLe_trans⟩

instance strLe_isAntisymm : IsAntisymm GoString (fun a b => strLe a b = true) := ⟨strLe_antisymm⟩

theorem sortStrings_perm (keys : List GoString) : (sortStrings keys).Perm keys :=
  List.perm_insertionSort _ keys

/-- Sorting does not depend on the order in which the keys were collected. -/
theorem sortStrings_eq_of_perm (k1 k2 : List GoString) (h : k1.Perm k2) :
    sortStrings k1 = sortStrings k2 :=
  List.eq_of_perm_of_sorted
    (((sortStrings_perm k1).trans h).trans (sortStrings_perm k2).symm)
    (List.sorted_insertionSort _ k1) (List.sorted_insertionSort _ k2)

/-! ### The parameter set -/

theorem get_add (m : Values) (k value key : GoString) :
    Values.get (Values.add m k value) key =
      if k = key then Values.get m key ++ [value] else Values.get m key := by
  induction m with
  | nil => by_cases h : k = key <;> simp [Values.add, Values.get, h]
  | cons e m ih =>
    obtain ⟨k2, vs⟩ := e
    by_cases h2 : k2 = k
    · subst h2
      by_cases h : k2 = key <;> simp [Values.add, Values.get, h]
    · by_cases h : k = key
      · subst h
        simp only [Values.add, h2, if_false, Values.get, ih, if_true]
      · by_cases h3 : k2 = key
        · subst h3
          simp [Values.add, h2, Values.get, h]
        · simp [Values.add, h2, Values.get, h3, h, ih]

theorem get_foldl_add (ps : List (GoString × GoString)) : ∀ (m : Values) (key : GoString),
    Values.get (ps.foldl (fun m kv => Values.add m kv.1 kv.2) m) key =
      Values.get m key ++ entriesOf ps key := by
  induction ps with
  | nil => intro m key; simp [entriesOf]
  | cons p ps ih =>
    intro m key
    rw [List.foldl_cons, ih, get_add]
    by_cases h : p.1 = key <;> simp [entriesOf, List.filter_cons, h]

theorem keys_add (m : Values) (k value : GoString) :
    Values.keys (Values.add m k value) = if k ∈ Values.keys m then Values.keys m else Values.keys m ++ [k] := by
  induction m with
  | nil => simp [Values.add, Values.keys]
  | cons e m ih =>
    obtain ⟨k2, vs⟩ := e
    by_cases h2 : k2 = k
    · subst h2; simp [Values.add, Values.keys]
    · have h3 : ¬ k = k2 := fun e => h2 e.symm
      simp only [Values.keys] at ih
      by_cases h : k ∈ List.map Prod.fst m
      · simp [Values.add, Values.keys, h2, h3, h, ih]
      · simp [Values.add, Values.keys, h2, h3, h, ih]

theorem nodup_keys_add (m : Values) (k value : GoString) (h : (Values.keys m).Nodup) :
    (Values.keys (Values.add m k value)).Nodup := by
  rw [keys_add]
  by_cases hk : k ∈ Values.keys m
  · simp [hk, h]
  · simp only [hk, if_false]
    exact List.nodup_append.mpr ⟨h, List.nodup_singleton _, by
      intro a ha hb; simp only [List.mem_singleton] at hb; subst hb; exact hk ha⟩

theorem mem_keys_add (m : Values) (k value key : GoString) :
    key ∈ Values.keys (Values.add m k value) ↔ key = k ∨ key ∈ Values.keys m := by
  rw [keys_add]
  by_cases hk : k ∈ Values.keys m
  · simp only [hk, if_true]
    constructor
    · exact Or.inr
    · rintro (rfl | h)
      · exact hk
      · exact h
  · simp only [hk, if_false, List.mem_append, List.mem_singleton]
    tauto

theorem nodup_keys_foldl_add (ps : List (GoString × GoString)) : ∀ (m : Values), (Values.keys m).Nodup →
    (Values.keys (ps.foldl (fun m kv => Values.add m kv.1 kv.2) m)).Nodup := by
  induction ps with
  | nil => intro m h; exact h
  | cons p ps ih => intro m h; exact ih _ (nodup_keys_add m p.1 p.2 h)

theorem mem_keys_foldl_add (ps : List (GoString × GoString)) : ∀ (m : Values) (key : GoString),
    key ∈ Values.keys (ps.foldl (fun m kv => Values.add m kv.1 kv.2) m) ↔
      key ∈ Values.keys m ∨ key ∈ ps.map Prod.fst := by
  induction ps with
  | nil => intro m key; simp
  | cons p ps ih =>
    intro m key
    rw [List.foldl_cons, ih, mem_keys_add]
    simp only [List.map_cons, List.mem_cons]
    tauto

theorem get_of_not_mem_keys (m : Values) (key : GoString) (h : key ∉ Values.keys m) :
    Values.get m key = [] := by
  induction m with
  | nil => rfl
  | cons e m ih =>
    obtain ⟨k2, vs⟩ := e
    simp only [Values.keys, List.map_cons, List.mem_cons, not_or] at h
    have h2 : ¬ k2 = key := fun e => h.1 e.symm
    simp only [Values.get, h2, if_false]
    exact ih h.2

theorem entriesOf_flatMap (f : GoString → List GoString) (key : GoString) : ∀ (keys : List GoString),
    keys.Nodup →
    entriesOf (keys.flatMap (fun k => (f k).map (fun value => (k, value)))) key =
      if key ∈ keys then f key else [] := by
  intro keys
  induction keys with
  | nil => intro _; rfl
  | cons k keys ih =>
    intro hnd
    have hk : k ∉ keys := (List.nodup_cons.mp hnd).1
    have hnd2 := (List.nodup_cons.mp hnd).2
    have happ : entriesOf (((k :: keys).flatMap (fun k => (f k).map (fun value => (k, value))))) key =
        entriesOf ((f k).map (fun value => (k, value))) key ++
          entriesOf (keys.flatMap (fun k => (f k).map (fun value => (k, value)))) key := by
      simp [entriesOf, List.flatMap_cons, List.filter_append]
    rw [happ, ih hnd2]
    by_cases h : k = key
    · subst h
      have : entriesOf ((f k).map (fun value => (k, value))) k = f k := by
        simp [entriesOf, List.filter_map, Function.comp_def]
      simp [this, hk]
    · have : entriesOf ((f k).map (fun value => (k, value))) key = [] := by
        simp [entriesOf, List.filter_map, Function.comp_def, h]
      have h2 : ¬ key = k := fun e => h e.symm
      simp [this, h2]

/-- The values a key has among the pairs that `Values.Encode` writes are the values
the map holds for it. -/
theorem entriesOf_pairs (v : Values) (key : GoString) (h : (Values.keys v).Nodup) :
    entriesOf (Values.pairs v) key = Values.get v key := by
  unfold Values.pairs
  rw [entriesOf_flatMap (Values.get v) key _ ((sortStrings_perm _).nodup_iff.mpr h)]
  by_cases hk : key ∈ Values.keys v
  · simp [(sortStrings_perm (Values.keys v)).mem_iff, hk]
  · simp [(sortStrings_perm (Values.keys v)).mem_iff, hk, get_of_not_mem_keys v key hk]

/-! ## The parameter set of `query` -/

/-- Round trip of a parameter set: decoding what `Values.Encode` wrote reports no
error and gives every key the values it had, in the same order. -/
theorem parseQuery_encode (v : Values) (h : (Values.keys v).Nodup) :
    (parseQuery (Values.encode v)).2 = none ∧
      ∀ key, Values.get (parseQuery (Values.encode v)).1 key = Values.get v key := by
  rw [encode_eq, parseQuery_joinAmp]
  refine ⟨rfl, fun key => ?_⟩
  rw [get_foldl_add, entriesOf_pairs v key h]
  rfl

theorem get_add_if (m : Values) (cond : Prop) [Decidable cond] (k value key : GoString) :
    Values.get (if cond then Values.add m k value else m) key =
      Values.get m key ++ (if cond ∧ k = key then [value] else []) := by
  by_cases hc : cond
  · by_cases hk : k = key <;> simp [hc, hk, get_add]
  · simp [hc]

theorem nodup_keys_add_if (m : Values) (cond : Prop) [Decidable cond] (k value : GoString)
    (h : (Values.keys m).Nodup) : (Values.keys (if cond then Values.add m k value else m)).Nodup := by
  by_cases hc : cond
  · simp only [hc, if_true]; exact nodup_keys_add m k value h
  · simp only [hc, if_false]; exact h

theorem mem_keys_add_if (m : Values) (cond : Prop) [Decidable cond] (k value key : GoString) :
    key ∈ Values.keys (if cond then Values.add m k value else m) ↔
      (cond ∧ key = k) ∨ key ∈ Values.keys m := by
  by_cases hc : cond
  · simp only [hc, if_true, true_and]; exact mem_keys_add m k value key
  · simp [hc]

/-- The keys of the parameter set of `query` are distinct, as those of a map are. -/
theorem nodup_keys_queryParameters (c : Client) (startTime endTime resourceType text : GoString)
    (limit : Int) (extraParams : List (GoString × GoString)) :
    (Values.keys (queryParameters c startTime endTime resourceType text limit extraParams)).Nodup := by
  unfold queryParameters
  apply nodup_keys_foldl_add
  apply nodup_keys_add_if
  apply nodup_keys_add_if
  apply nodup_keys_add_if
  apply nodup_keys_add_if
  apply nodup_keys_add_if
  apply nodup_keys_add
  exact List.nodup_nil

/-- The values of every key in the parameter set of `query`: the fixed parameters
that apply, then the entries of `extraParams`. -/
theorem get_queryParameters (c : Client) (startTime endTime resourceType text : GoString)
    (limit : Int) (extraParams : List (GoString × GoString)) (key : GoString) :
    Values.get (queryParameters c startTime endTime resourceType text limit extraParams) key =
      (if lit "access_token" = key then [c.appId ++ lit "|" ++ c.appSecret] else []) ++
      (if startTime.length > 0 ∧ lit "since" = key then [startTime] else []) ++
      (if endTime.length > 0 ∧ lit "until" = key then [endTime] else []) ++
      (if resourceType.length > 0 ∧ lit "type" = key then [resourceType] else []) ++
      (if text.length > 0 ∧ lit "text" = key then [text] else []) ++
      (if limit > 0 ∧ lit "limit" = key then [formatInt limit] else []) ++
      entriesOf extraParams key := by
  unfold queryParameters
  simp only [get_foldl_add, get_add_if, get_add, Values.get, List.nil_append]

/-- The keys of the parameter set of `query`. -/
theorem mem_keys_queryParameters (c : Client) (startTime endTime resourceType text : GoString)
    (limit : Int) (extraParams : List (GoString × GoString)) (key : GoString) :
    key ∈ Values.keys (queryParameters c startTime endTime resourceType text limit extraParams) ↔
      (key = lit "access_token" ∨ (startTime.length > 0 ∧ key = lit "since") ∨
        (endTime.length > 0 ∧ key = lit "until") ∨ (resourceType.length > 0 ∧ key = lit "type") ∨
        (text.length > 0 ∧ key = lit "text") ∨ (limit > 0 ∧ key = lit "limit")) ∨
      key ∈ extraParams.map Prod.fst := by
  unfold queryParameters
  have hnil : ∀ k : GoString, k ∉ Values.keys [] := fun k h => by cases h
  simp only [mem_keys_foldl_add, mem_keys_add_if, mem_keys_add, hnil, or_false]
  tauto

/-- The values of a key in the decoded query string of `query`. -/
theorem decoded_queryParameters (c : Client) (startTime endTime resourceType text : GoString)
    (limit : Int) (extraParams : List (GoString × GoString)) :
    (parseQuery (Values.encode (queryParameters c startTime endTime resourceType text limit extraParams))).2
        = none ∧
    ∀ key,
      Values.get
        (parseQuery (Values.encode (queryParameters c startTime endTime resourceType text limit extraParams))).1
        key =
      Values.get (queryParameters c startTime endTime resourceType text limit extraParams) key :=
  parseQuery_encode _ (nodup_keys_queryParameters c startTime endTime resourceType text limit extraParams)

theorem entriesOf_of_mem (ep : List (GoString × GoString)) (k x : GoString)
    (hnd : (ep.map Prod.fst).Nodup) (hm : (k, x) ∈ ep) : entriesOf ep k = [x] := by
  induction ep with
  | nil => cases hm
  | cons e ep ih =>
    obtain ⟨k2, x2⟩ := e
    simp only [List.map_cons, List.nodup_cons] at hnd
    rcases List.mem_cons.mp hm with h | h
    · obtain ⟨rfl, rfl⟩ := Prod.mk.inj h
      have hnone : entriesOf ep k = [] := by
        simp only [entriesOf, List.map_eq_nil_iff, List.filter_eq_nil_iff]
        intro a ha
        have : a.1 ≠ k := fun e => hnd.1 (e ▸ List.mem_map_of_mem Prod.fst ha)
        simpa using this
      have : entriesOf ((k, x) :: ep) k = x :: entriesOf ep k := by
        simp [entriesOf, List.filter_cons]
      rw [this, hnone]
    · have hne : k2 ≠ k := fun e => hnd.1 (e ▸ List.mem_map_of_mem Prod.fst h)
      have : entriesOf ((k2, x2) :: ep) k = entriesOf ep k := by
        simp [entriesOf, List.filter_cons, hne]
      rw [this, ih hnd.2 h]

theorem entriesOf_of_not_mem (ep : List (GoString × GoString)) (k : GoString)
    (h : k ∉ ep.map Prod.fst) : entriesOf ep k = [] := by
  simp only [entriesOf, List.map_eq_nil_iff, List.filter_eq_nil_iff]
  intro a ha
  have : a.1 ≠ k := fun e => h (e ▸ List.mem_map_of_mem Prod.fst ha)
  simpa using this

theorem mem_entriesOf (ep : List (GoString × GoString)) (k x : GoString) :
    x ∈ entriesOf ep k ↔ (k, x) ∈ ep := by
  simp only [entriesOf, List.mem_map, List.mem_filter, decide_eq_true_eq]
  constructor
  · rintro ⟨⟨a, b⟩, ⟨hm, rfl⟩, rfl⟩; exact hm
  · intro h; exact ⟨(k, x), ⟨h, rfl⟩, rfl⟩

/-- Two iteration orders of the same map give every key the same entries. -/
theorem entriesOf_perm (ep1 ep2 : List (GoString × GoString)) (k : GoString)
    (hnd : (ep1.map Prod.fst).Nodup) (hp : ep1.Perm ep2) : entriesOf ep1 k = entriesOf ep2 k := by
  have hnd2 : (ep2.map Prod.fst).Nodup := (hp.map Prod.fst).nodup_iff.mp hnd
  by_cases h : k ∈ ep1.map Prod.fst
  · obtain ⟨⟨k2, x⟩, hm, rfl⟩ := List.mem_map.mp h
    rw [entriesOf_of_mem ep1 k2 x hnd hm, entriesOf_of_mem ep2 k2 x hnd2 (hp.mem_iff.mp hm)]
  · have h2 : k ∉ ep2.map Prod.fst := fun e => h ((hp.map Prod.fst).mem_iff.mpr e)
    rw [entriesOf_of_not_mem ep1 k h, entriesOf_of_not_mem ep2 k h2]

/-- The encoded string depends on the parameter set as a map only: on its set of
keys and on the values of each key. -/
theorem encode_congr (v1 v2 : Values) (hk : (Values.keys v1).Perm (Values.keys v2))
    (hg : ∀ key, Values.get v1 key = Values.get v2 key) : Values.encode v1 = Values.encode v2 := by
  rw [encode_eq, encode_eq]
  unfold Values.pairs
  rw [sortStrings_eq_of_perm _ _ hk]
  have : (fun k => (Values.get v1 k).map (fun value => (k, value))) =
      (fun k => (Values.get v2 k).map (fun value => (k, value))) := by
    funext k; rw [hg]
  rw [this]

theorem rawQuery_queryURL (u : URL) (c : Client)
    (apiVersion resource startTime endTime resourceType text : GoString) (limit : Int)
    (extraParams : List (GoString × GoString)) :
    (queryURL u c apiVersion resource startTime endTime resourceType text limit extraParams).RawQuery =
      Values.encode (queryParameters c startTime endTime resourceType text limit extraParams) := rfl

theorem fixed_keys_ne :
    lit "access_token" ≠ lit "since" ∧ lit "access_token" ≠ lit "until" ∧ lit "access_token" ≠ lit "type" ∧
    lit "access_token" ≠ lit "text" ∧ lit "access_token" ≠ lit "limit" ∧
    lit "since" ≠ lit "until" ∧ lit "since" ≠ lit "type" ∧ lit "since" ≠ lit "text" ∧
    lit "since" ≠ lit "limit" ∧ lit "until" ≠ lit "type" ∧ lit "until" ≠ lit "text" ∧
    lit "until" ≠ lit "limit" ∧ lit "type" ≠ lit "text" ∧ lit "type" ≠ lit "limit" ∧
    lit "text" ≠ lit "limit" := by
  decide

/-- The values of the six fixed keys in the parameter set of `query`. -/
theorem get_fixed_keys (c : Client) (startTime endTime resourceType text : GoString)
    (limit : Int) (extraParams : List (GoString × GoString)) :
    Values.get (queryParameters c startTime endTime resourceType text limit extraParams) (lit "access_token")
      = (c.appId ++ lit "|" ++ c.appSecret) :: entriesOf extraParams (lit "access_token") ∧
    Values.get (queryParameters c startTime endTime resourceType text limit extraParams) (lit "since")
      = (if startTime.length > 0 then [startTime] else []) ++ entriesOf extraParams (lit "since") ∧
    Values.get (queryParameters c startTime endTime resourceType text limit extraParams) (lit "until")
      = (if endTime.length > 0 then [endTime] else []) ++ entriesOf extraParams (lit "until") ∧
    Values.get (queryParameters c startTime endTime resourceType text limit extraParams) (lit "type")
      = (if resourceType.length > 0 then [resourceType] else []) ++ entriesOf extraParams (lit "type") ∧
    Values.get (queryParameters c startTime endTime resourceType text limit extraParams) (lit "text")
      = (if text.length > 0 then [text] else []) ++ entriesOf extraParams (lit "text") ∧
    Values.get (queryParameters c startTime endTime resourceType text limit extraParams) (lit "limit")
      = (if limit > 0 then [formatInt limit] else []) ++ entriesOf extraParams (lit "limit") := by
  obtain ⟨h1, h2, h3, h4, h5, h6, h7, h8, h9, h10, h11, h12, h13, h14, h15⟩ := fixed_keys_ne
  simp only [get_queryParameters]
  refine ⟨?_, ?_, ?_, ?_, ?_, ?_⟩ <;>
    simp [h1, h2, h3, h4, h5, h6, h7, h8, h9, h10, h11, h12, h13, h14, h15,
      h1.symm, h2.symm, h3.symm, h4.symm, h5.symm, h6.symm, h7.symm, h8.symm, h9.symm, h10.symm,
      h11.symm, h12.symm, h13.symm, h14.symm, h15.symm]

/-- The keys of the pairs that `Values.Encode` writes are in ascending order. -/
theorem sorted_keys_pairs (v : Values) :
    List.Sorted (fun a b => strLe a b = true) ((Values.pairs v).map Prod.fst) := by
  unfold Values.pairs List.Sorted
  have hs : List.Pairwise (fun a b => strLe a b = true) (sortStrings (Values.keys v)) :=
    List.sorted_insertionSort _ _
  rw [List.pairwise_map, List.pairwise_flatMap]
  constructor
  · intro k _
    rw [List.pairwise_map]
    exact List.pairwise_of_forall (fun _ _ => strLe_refl k)
  · refine hs.imp ?_
    intro a b hab x hx y hy
    obtain ⟨_, _, rfl⟩ := List.mem_map.mp hx
    obtain ⟨_, _, rfl⟩ := List.mem_map.mp hy
    exact hab

/-! ## The requested URL -/

theorem get_access_token_ne_nil (c : Client) (startTime endTime resourceType text : GoString)
    (limit : Int) (extraParams : List (GoString × GoString)) :
    Values.get (queryParameters c startTime endTime resourceType text limit extraParams) (lit "access_token")
      ≠ [] := by
  have h1 : lit "access_token" ≠ lit "since" := by decide
  rw [get_queryParameters]
  simp

/-- The query string of `query` is never empty: it always holds the access token. -/
theorem encode_queryParameters_ne_nil (c : Client) (startTime endTime resourceType text : GoString)
    (limit : Int) (extraParams : List (GoString × GoString)) :
    Values.encode (queryParameters c startTime endTime resourceType text limit extraParams) ≠ [] := by
  intro h
  have hd := (decoded_queryParameters c startTime endTime resourceType text limit extraParams).2
    (lit "access_token")
  rw [h] at hd
  exact get_access_token_ne_nil c startTime endTime resourceType text limit extraParams hd.symm

/-- The URL string requested, for a resource whose path needs no escaping. -/
theorem requestURL_eq (c : Client) (resource startTime endTime resourceType text : GoString) (limit : Int)
    (extraParams : List (GoString × GoString))
    (hpath : escape (lit "/" ++ apiVersion ++ lit "/" ++ resource ++ lit "/") Encoding.encodePath =
      lit "/" ++ apiVersion ++ lit "/" ++ resource ++ lit "/") :
    c.requestURL resource startTime endTime resourceType text limit extraParams =
      DefaultURL ++ (lit "/" ++ apiVersion ++ lit "/" ++ resource ++ lit "/") ++ lit "?" ++
        Values.encode (queryParameters c startTime endTime resourceType text limit extraParams) := by
  have hq := encode_queryParameters_ne_nil c startTime endTime resourceType text limit extraParams
  have hhost : escape (lit "graph.facebook.com") Encoding.encodeHost = lit "graph.facebook.com" := by
    decide
  have hslash : lit "/" = [(47 : Byte)] := by decide
  have hstar : lit "*" = [(42 : Byte)] := by decide
  have hp : lit "/" ++ apiVersion ++ lit "/" ++ resource ++ lit "/" =
      47 :: (apiVersion ++ lit "/" ++ resource ++ lit "/") := by
    rw [hslash]; simp
  have h1 : lit "https" ≠ [] := by decide
  have h2 : lit "graph.facebook.com" ≠ [] := by decide
  have h3 : DefaultURL = lit "https" ++ lit ":" ++ lit "//" ++ lit "graph.facebook.com" := by decide
  unfold Client.requestURL URL.String URL.EscapedPath queryURL baseURL
  simp only [List.nil_append, hpath]
  rw [hp, hstar]
  have hne : (47 : Byte) :: (apiVersion ++ lit "/" ++ resource ++ lit "/") ≠ [42] := by
    intro h
    have := (List.cons.inj h).1
    revert this; decide
  simp only [hne, if_false, hpath, hp, hq, h1, h2, h3, hhost, ne_eq, not_false_eq_true, if_true, true_or,
    List.head?_cons, not_true_eq_false, false_and, and_false, List.length_append]
  have hlen : ¬ ((lit "https").length + (lit ":").length + (lit "//").length +
      (lit "graph.facebook.com").length = 0) := by decide
  simp only [hlen, if_false]

/-! ## The paths through `query` -/

theorem query_transport_error {R : Type} (c : Client) (get : Transport) (unmarshal : Unmarshal R)
    (resource startTime endTime resourceType text : GoString) (limit : Int)
    (extraParams : List (GoString × GoString)) (result : R) (err : GoError)
    (hget : get (c.requestURL resource startTime endTime resourceType text limit extraParams) =
      Except.error err) :
    c.query get unmarshal ThreatExchange.apiVersion resource startTime endTime resourceType text limit
        extraParams result =
      ⟨result, [], some err,
        [Event.httpGet (c.requestURL resource startTime endTime resourceType text limit extraParams)]⟩ := by
  unfold Client.query parseDefaultURL
  unfold Client.requestURL at hget ⊢
  simp only [hget]

theorem query_no_body {R : Type} (c : Client) (get : Transport) (unmarshal : Unmarshal R)
    (resource startTime endTime resourceType text : GoString) (limit : Int)
    (extraParams : List (GoString × GoString)) (result : R) (res : Response)
    (hget : get (c.requestURL resource startTime endTime resourceType text limit extraParams) =
      Except.ok res)
    (hbody : res.Body = none) :
    c.query get unmarshal ThreatExchange.apiVersion resource startTime endTime resourceType text limit
        extraParams result =
      ⟨result, [],
        some (Errorf (lit "Empty body for query : " ++
          c.requestURL resource startTime endTime resourceType text limit extraParams)),
        [Event.httpGet (c.requestURL resource startTime endTime resourceType text limit extraParams)]⟩ := by
  unfold Client.query parseDefaultURL
  unfold Client.requestURL at hget ⊢
  simp only [hget, hbody]

theorem query_bad_status {R : Type} (c : Client) (get : Transport) (unmarshal : Unmarshal R)
    (resource startTime endTime resourceType text : GoString) (limit : Int)
    (extraParams : List (GoString × GoString)) (result : R) (res : Response) (body : Body)
    (hget : get (c.requestURL resource startTime endTime resourceType text limit extraParams) =
      Except.ok res)
    (hbody : res.Body = some body) (hstatus : res.StatusCode ≠ StatusOK) :
    c.query get unmarshal ThreatExchange.apiVersion resource startTime endTime resourceType text limit
        extraParams result =
      ⟨result, [], some (Errorf (lit "Wrong http return code, got : " ++ formatInt res.StatusCode)),
        [Event.httpGet (c.requestURL resource startTime endTime resourceType text limit extraParams)] ++
          c.errorf (lit "Wrong http return code, got : " ++ formatInt res.StatusCode) ++
          [Event.closeBody]⟩ := by
  unfold Client.query parseDefaultURL
  unfold Client.requestURL at hget ⊢
  simp only [hget, hbody, hstatus, ne_eq, not_false_eq_true, if_true]

theorem query_read_error {R : Type} (c : Client) (get : Transport) (unmarshal : Unmarshal R)
    (resource startTime endTime resourceType text : GoString) (limit : Int)
    (extraParams : List (GoString × GoString)) (result : R) (res : Response) (body : Body)
    (err : GoError)
    (hget : get (c.requestURL resource startTime endTime resourceType text limit extraParams) =
      Except.ok res)
    (hbody : res.Body = some body) (hstatus : res.StatusCode = StatusOK)
    (hread : body.readAll = Except.error err) :
    c.query get unmarshal ThreatExchange.apiVersion resource startTime endTime resourceType text limit
        extraParams result =
      ⟨result, [], some err,
        [Event.httpGet (c.requestURL resource startTime endTime resourceType text limit extraParams),
            Event.readBody] ++
          c.errorf (lit "Could not read response body : " ++ err.msg) ++ [Event.closeBody]⟩ := by
  unfold Client.query parseDefaultURL
  unfold Client.requestURL at hget ⊢
  simp only [hget, hbody, hstatus, hread, ne_eq, not_true_eq_false, if_false]

theorem query_decode_error {R : Type} (c : Client) (get : Transport) (unmarshal : Unmarshal R)
    (resource startTime endTime resourceType text : GoString) (limit : Int)
    (extraParams : List (GoString × GoString)) (result : R) (res : Response) (body : Body)
    (byteRes : GoString) (result2 : R) (err : GoError)
    (hget : get (c.requestURL resource startTime endTime resourceType text limit extraParams) =
      Except.ok res)
    (hbody : res.Body = some body) (hstatus : res.StatusCode = StatusOK)
    (hread : body.readAll = Except.ok byteRes)
    (hjson : unmarshal byteRes result = (result2, some err)) :
    c.query get unmarshal ThreatExchange.apiVersion resource startTime endTime resourceType text limit
        extraParams result =
      ⟨result2, [], some err,
        [Event.httpGet (c.requestURL resource startTime endTime resourceType text limit extraParams),
            Event.readBody, Event.unmarshal byteRes] ++
          c.errorf (lit "Could not Unmarshal response body : " ++ byteRes ++
            lit ", for resource : " ++ resource) ++
          [Event.closeBody]⟩ := by
  unfold Client.query parseDefaultURL
  unfold Client.requestURL at hget ⊢
  simp only [hget, hbody, hstatus, hread, hjson, ne_eq, not_true_eq_false, if_false]

theorem query_success {R : Type} (c : Client) (get : Transport) (unmarshal : Unmarshal R)
    (resource startTime endTime resourceType text : GoString) (limit : Int)
    (extraParams : List (GoString × GoString)) (result : R) (res : Response) (body : Body)
    (byteRes : GoString) (result2 : R)
    (hget : get (c.requestURL resource startTime endTime resourceType text limit extraParams) =
      Except.ok res)
    (hbody : res.Body = some body) (hstatus : res.StatusCode = StatusOK)
    (hread : body.readAll = Except.ok byteRes)
    (hjson : unmarshal byteRes result = (result2, none)) :
    c.query get unmarshal ThreatExchange.apiVersion resource startTime endTime resourceType text limit
        extraParams result =
      ⟨result2, byteRes, none,
        [Event.httpGet (c.requestURL resource startTime endTime resourceType text limit extraParams),
          Event.readBody, Event.unmarshal byteRes, Event.closeBody]⟩ := by
  unfold Client.query parseDefaultURL
  unfold Client.requestURL at hget ⊢
  simp only [hget, hbody, hstatus, hread, hjson, ne_eq, not_true_eq_false, if_false]

/-- Every call of `query` starts by requesting its URL. -/
theorem query_trace_head {R : Type} (c : Client) (get : Transport) (unmarshal : Unmarshal R)
    (resource startTime endTime resourceType text : GoString) (limit : Int)
    (extraParams : List (GoString × GoString)) (result : R) :
    (c.query get unmarshal ThreatExchange.apiVersion resource startTime endTime resourceType text limit
        extraParams result).trace.head? =
      some (Event.httpGet (c.requestURL resource startTime endTime resourceType text limit extraParams)) := by
  cases hget : get (c.requestURL resource startTime endTime resourceType text limit extraParams) with
  | error err => rw [query_transport_error c get unmarshal _ _ _ _ _ _ _ result err hget]; rfl
  | ok res =>
    cases hbody : res.Body with
    | none => rw [query_no_body c get unmarshal _ _ _ _ _ _ _ result res hget hbody]; rfl
    | some body =>
      by_cases hstatus : res.StatusCode = StatusOK
      · cases hread : body.readAll with
        | error err =>
          rw [query_read_error c get unmarshal _ _ _ _ _ _ _ result res body err hget hbody hstatus hread]
          rfl
        | ok byteRes =>
          rcases hjson : unmarshal byteRes result with ⟨result2, _ | err⟩
          · rw [query_success c get unmarshal _ _ _ _ _ _ _ result res body byteRes result2 hget hbody
              hstatus hread hjson]
            rfl
          · rw [query_decode_error c get unmarshal _ _ _ _ _ _ _ result res body byteRes result2 err hget
              hbody hstatus hread hjson]
            rfl
      · rw [query_bad_status c get unmarshal _ _ _ _ _ _ _ result res body hget hbody hstatus]; rfl

/-- A call of `query` either fails with an empty string, or returns without error the
bytes that the decoder accepted. -/
theorem query_shape {R : Type} (c : Client) (get : Transport) (unmarshal : Unmarshal R)
    (resource startTime endTime resourceType text : GoString) (limit : Int)
    (extraParams : List (GoString × GoString)) (result : R) :
    ((c.query get unmarshal ThreatExchange.apiVersion resource startTime endTime resourceType text limit
          extraParams result).err ≠ none ∧
      (c.query get unmarshal ThreatExchange.apiVersion resource startTime endTime resourceType text limit
          extraParams result).raw = []) ∨
    ((c.query get unmarshal ThreatExchange.apiVersion resource startTime endTime resourceType text limit
          extraParams result).err = none ∧
      (unmarshal
          (c.query get unmarshal ThreatExchange.apiVersion resource startTime endTime resourceType text
            limit extraParams result).raw result).2 = none) := by
  cases hget : get (c.requestURL resource startTime endTime resourceType text limit extraParams) with
  | error err =>
    rw [query_transport_error c get unmarshal _ _ _ _ _ _ _ result err hget]
    exact Or.inl ⟨by simp, rfl⟩
  | ok res =>
    cases hbody : res.Body with
    | none =>
      rw [query_no_body c get unmarshal _ _ _ _ _ _ _ result res hget hbody]
      exact Or.inl ⟨by simp, rfl⟩
    | some body =>
      by_cases hstatus : res.StatusCode = StatusOK
      · cases hread : body.readAll with
        | error err =>
          rw [query_read_error c get unmarshal _ _ _ _ _ _ _ result res body err hget hbody hstatus hread]
          exact Or.inl ⟨by simp, rfl⟩
        | ok byteRes =>
          rcases hjson : unmarshal byteRes result with ⟨result2, _ | err⟩
          · rw [query_success c get unmarshal _ _ _ _ _ _ _ result res body byteRes result2 hget hbody
              hstatus hread hjson]
            exact Or.inr ⟨rfl, by simp [hjson]⟩
          · rw [query_decode_error c get unmarshal _ _ _ _ _ _ _ result res body byteRes result2 err hget
              hbody hstatus hread hjson]
            exact Or.inl ⟨by simp, rfl⟩
      · rw [query_bad_status c get unmarshal _ _ _ _ _ _ _ result res body hget hbody hstatus]
        exact Or.inl ⟨by simp, rfl⟩

/-! ## The outcomes of the public operations -/

theorem startsWith_append (s t : GoString) : startsWith (s ++ t) s = true := by
  induction s with
  | nil => cases t <;> rfl
  | cons a s ih => simp [startsWith, ih]

theorem strContains_of_startsWith (s sub : GoString) (h : startsWith s sub = true) :
    strContains s sub = true := by
  cases s with
  | nil => exact h
  | cons a s => simp [strContains, h]

/-- A string contains each of the pieces it was concatenated from. -/
theorem strContains_append (p s t : GoString) : strContains (p ++ s ++ t) s = true := by
  induction p with
  | nil => exact strContains_of_startsWith _ _ (startsWith_append s t)
  | cons a p ih =>
    simp only [List.cons_append, strContains, Bool.or_eq_true]
    exact Or.inr ih

theorem ofQuery_bad_status {R : Type} (c : Client) (get : Transport) (unmarshal : Unmarshal R)
    (resource startTime endTime resourceType text : GoString) (limit : Int)
    (extraParams : List (GoString × GoString)) (result : R) (res : Response) (body : Body)
    (hget : get (c.requestURL resource startTime endTime resourceType text limit extraParams) =
      Except.ok res)
    (hbody : res.Body = some body) (hstatus : res.StatusCode ≠ 200) :
    (Outcome.ofQuery (c.query get unmarshal ThreatExchange.apiVersion resource startTime endTime
        resourceType text limit extraParams result)).isStatusFailure c
      (c.requestURL resource startTime endTime resourceType text limit extraParams) res.StatusCode := by
  rw [query_bad_status c get unmarshal _ _ _ _ _ _ _ result res body hget hbody hstatus]
  refine ⟨rfl, rfl, rfl, rfl, ?_⟩
  intro e he
  simp only [Outcome.ofQuery, Client.errorf] at he
  by_cases hl : c.logger = true
  · simp only [hl, if_true, List.cons_append, List.nil_append, List.mem_cons, List.mem_singleton,
      List.not_mem_nil, or_false] at he
    rcases he with rfl | rfl | rfl <;> rfl
  · simp only [hl, List.cons_append, List.nil_append, List.mem_cons,
      List.not_mem_nil, or_false] at he
    simp at he
    rcases he with rfl | rfl <;> rfl

theorem ofQuery_decode_error {R : Type} (c : Client) (get : Transport) (unmarshal : Unmarshal R)
    (resource startTime endTime resourceType text : GoString) (limit : Int)
    (extraParams : List (GoString × GoString)) (result : R) (res : Response) (body : Body)
    (byteRes : GoString) (err : GoError)
    (hget : get (c.requestURL resource startTime endTime resourceType text limit extraParams) =
      Except.ok res)
    (hbody : res.Body = some body) (hstatus : res.StatusCode = 200)
    (hread : body.readAll = Except.ok byteRes)
    (hjson : (unmarshal byteRes result).2 = some err) :
    (Outcome.ofQuery (c.query get unmarshal ThreatExchange.apiVersion resource startTime endTime
        resourceType text limit extraParams result)).isDecodeFailure c
      (c.requestURL resource startTime endTime resourceType text limit extraParams) byteRes resource
      err := by
  have hj : unmarshal byteRes result = ((unmarshal byteRes result).1, some err) := by
    rw [← hjson]
  rw [query_decode_error c get unmarshal _ _ _ _ _ _ _ result res body byteRes _ err hget hbody hstatus
    hread hj]
  exact ⟨rfl, rfl, rfl, rfl⟩

theorem ofQuery_success {R : Type} (c : Client) (get : Transport) (unmarshal : Unmarshal R)
    (resource startTime endTime resourceType text : GoString) (limit : Int)
    (extraParams : List (GoString × GoString)) (result : R) (res : Response) (body : Body)
    (byteRes : GoString)
    (hget : get (c.requestURL resource startTime endTime resourceType text limit extraParams) =
      Except.ok res)
    (hbody : res.Body = some body) (hstatus : res.StatusCode = 200)
    (hread : body.readAll = Except.ok byteRes)
    (hjson : (unmarshal byteRes result).2 = none) :
    (Outcome.ofQuery (c.query get unmarshal ThreatExchange.apiVersion resource startTime endTime
        resourceType text limit extraParams result)).isSuccess
      (c.requestURL resource startTime endTime resourceType text limit extraParams) byteRes
      (unmarshal byteRes result).1 := by
  have hj : unmarshal byteRes result = ((unmarshal byteRes result).1, none) := by
    rw [← hjson]
  rw [query_success c get unmarshal _ _ _ _ _ _ _ result res body byteRes _ hget hbody hstatus hread hj]
  exact ⟨rfl, rfl, rfl, rfl⟩

theorem ofQuery_wellShaped {R : Type} (c : Client) (get : Transport) (unmarshal : Unmarshal R)
    (resource startTime endTime resourceType text : GoString) (limit : Int)
    (extraParams : List (GoString × GoString)) (result : R)
    (hempty : ∀ r : R, (unmarshal [] r).2 ≠ none) :
    (Outcome.ofQuery (c.query get unmarshal ThreatExchange.apiVersion resource startTime endTime
        resourceType text limit extraParams result)).wellShaped := by
  rcases query_shape c get unmarshal resource startTime endTime resourceType text limit extraParams result
    with ⟨he, _⟩ | ⟨he, hu⟩
  · right
    cases h : (c.query get unmarshal ThreatExchange.apiVersion resource startTime endTime
        resourceType text limit extraParams result).err with
    | none => exact absurd h he
    | some err => simp [Outcome.ofQuery, h]
  · left
    have hraw : (c.query get unmarshal ThreatExchange.apiVersion resource startTime endTime
        resourceType text limit extraParams result).raw ≠ [] := by
      intro h0
      rw [h0] at hu
      exact hempty result hu
    simp [Outcome.ofQuery, he, hraw]

theorem encode_members (c : Client) :
    Values.encode (queryParameters c [] [] [] [] 0 []) =
      lit "access_token=" ++ queryEscape (c.appId ++ lit "|" ++ c.appSecret) := by
  have hk : queryEscape (lit "access_token") = lit "access_token" := by decide
  have hl : lit "access_token=" = lit "access_token" ++ [61] := by decide
  simp [queryParameters, Values.add, Values.encode, Values.keys, sortStrings, Values.get, hk, hl]

theorem trace_ofQuery {R : Type} (q : QueryOutcome R) : (Outcome.ofQuery q).trace = q.trace := by
  unfold Outcome.ofQuery
  cases q.err <;> rfl

theorem unmarshalSample_empty {R : Type} (noRecords : R) (r : R) :
    (unmarshalSample noRecords [] r).2 ≠ none := by
  have h : ¬ (([] : GoString) = lit "\x7b\"data\":[]\x7d") := by decide
  simp [unmarshalSample, h]

/-! ## Decoding a result with `encoding/json` -/

theorem firstError_eq_none (a b : Option GoError) (h : firstError a b = none) : a = none ∧ b = none := by
  cases a with
  | none => exact ⟨rfl, h⟩
  | some e => cases h

theorem decodeElements_length {T : Type} (lib : Decoders T) (items : List JValue) :
    ∀ old : List T, (decodeElements lib items old).1.length = items.length := by
  induction items with
  | nil => intro _; rfl
  | cons v vs ih => intro old; simp [decodeElements, ih]

theorem fieldOf_data_iff (key : GoString) : fieldOf key = some Field.data ↔ namesData key = true := by
  have h1 : foldKey (lit "data") = lit "DATA" := by decide
  have h2 : foldKey (lit "paging") ≠ lit "DATA" := by decide
  have h3 : foldKey (lit "next") ≠ lit "DATA" := by decide
  unfold fieldOf namesData
  rw [decide_eq_true_iff]
  by_cases e1 : key = lit "data"
  · rw [if_pos e1, e1]
    exact ⟨fun _ => h1, fun _ => rfl⟩
  · rw [if_neg e1]
    by_cases e2 : key = lit "paging"
    · rw [if_pos e2, e2]
      exact ⟨fun h => (by cases h), fun h => absurd h h2⟩
    · rw [if_neg e2]
      by_cases e3 : key = lit "next"
      · rw [if_pos e3, e3]
        exact ⟨fun h => (by cases h), fun h => absurd h h3⟩
      · rw [if_neg e3]
        by_cases e4 : foldKey key = lit "DATA"
        · rw [if_pos e4]
          exact ⟨fun _ => e4, fun _ => rfl⟩
        · rw [if_neg e4]
          by_cases e5 : foldKey key = lit "PAGING"
          · rw [if_pos e5]
            exact ⟨fun h => (by cases h), fun h => absurd h e4⟩
          · rw [if_neg e5]
            by_cases e6 : foldKey key = lit "NEXT"
            · rw [if_pos e6]
              exact ⟨fun h => (by cases h), fun h => absurd h e4⟩
            · rw [if_neg e6]
              exact ⟨fun h => (by cases h), fun h => absurd h e4⟩

/-- One member: when no error is saved afterwards, none was saved before, and the
number of records is the length of the array for a member named `data`, zero for
such a member holding `null`, and what it was for any other member. -/
theorem decodeMember_ok {T : Type} (lib : Decoders T) (st : Envelope T × Option GoError)
    (m : GoString × JValue) (h : (decodeMember lib st m).2 = none) :
    st.2 = none ∧
      (decodeMember lib st m).1.Data.length =
        if namesData m.1 = true then
          (match m.2 with
            | JValue.array items => items.length
            | _ => 0)
        else st.1.Data.length := by
  unfold decodeMember at h ⊢
  cases hf : fieldOf m.1 with
  | none =>
    have hn : ¬ namesData m.1 = true := by rw [← fieldOf_data_iff, hf]; simp
    simp only [hf] at h ⊢
    exact ⟨h, by simp [hn]⟩
  | some f =>
    cases f with
    | data =>
      have hn : namesData m.1 = true := (fieldOf_data_iff m.1).mp hf
      simp only [hf, hn, if_true] at h ⊢
      cases hv : m.2 with
      | array items =>
        simp only [hv] at h ⊢
        exact ⟨(firstError_eq_none _ _ h).1, decodeElements_length lib items _⟩
      | null => simp only [hv] at h ⊢; exact ⟨h, rfl⟩
      | bool b => simp only [hv] at h; exact absurd (firstError_eq_none _ _ h).2 (by simp)
      | number t => simp only [hv] at h; exact absurd (firstError_eq_none _ _ h).2 (by simp)
      | string s => simp only [hv] at h; exact absurd (firstError_eq_none _ _ h).2 (by simp)
      | object ms => simp only [hv] at h; exact absurd (firstError_eq_none _ _ h).2 (by simp)
    | paging =>
      have hn : ¬ namesData m.1 = true := by rw [← fieldOf_data_iff, hf]; simp
      simp only [hf] at h ⊢
      exact ⟨(firstError_eq_none _ _ h).1, by simp [hn]⟩
    | next =>
      have hn : ¬ namesData m.1 = true := by rw [← fieldOf_data_iff, hf]; simp
      simp only [hf] at h ⊢
      cases hv : m.2 with
      | string s => simp only [hv] at h ⊢; exact ⟨h, by simp [hn]⟩
      | null => simp only [hv] at h ⊢; exact ⟨h, by simp [hn]⟩
      | bool b => simp only [hv] at h; exact absurd (firstError_eq_none _ _ h).2 (by simp)
      | number t => simp only [hv] at h; exact absurd (firstError_eq_none _ _ h).2 (by simp)
      | array items => simp only [hv] at h; exact absurd (firstError_eq_none _ _ h).2 (by simp)
      | object ms => simp only [hv] at h; exact absurd (firstError_eq_none _ _ h).2 (by simp)

theorem lastDataLen_append (l : List (GoString × JValue)) (m : GoString × JValue) :
    lastDataLen (l ++ [m]) =
      if namesData m.1 = true then
        (match m.2 with
          | JValue.array items => items.length
          | _ => 0)
      else lastDataLen l := by
  unfold lastDataLen
  by_cases hn : namesData m.1 = true
  · simp only [List.filter_append, List.filter_cons, hn, if_true, List.filter_nil,
      List.getLast?_append_of_ne_nil _ (List.cons_ne_nil m []), List.getLast?_singleton]
    obtain ⟨k, v⟩ := m
    cases v <;> rfl
  · simp [List.filter_append, List.filter_cons, hn]

/-- The members of the top-level object, decoded in order into a struct that had no
records: when no error is saved, the number of records is `lastDataLen`. -/
theorem foldl_decodeMember_ok {T : Type} (lib : Decoders T) (dst : Envelope T) (hdst : dst.Data = []) :
    ∀ members : List (GoString × JValue),
      (members.foldl (decodeMember lib) (dst, none)).2 = none →
      (members.foldl (decodeMember lib) (dst, none)).1.Data.length = lastDataLen members := by
  intro members
  induction members using List.reverseRecOn with
  | nil => intro _; simp [lastDataLen, hdst]
  | append_singleton l m ih =>
    intro h
    rw [List.foldl_append, List.foldl_cons, List.foldl_nil] at h ⊢
    have hm := decodeMember_ok lib _ m h
    rw [hm.2, lastDataLen_append, ih hm.1]

/-- The record count of a decoded result: when `json.Unmarshal` accepts a text into a
result struct that had no records, the struct has `dataLen` of the text records. -/
theorem unmarshalEnvelope_count {T : Type} (lib : Decoders T) (data : GoString) (dst : Envelope T)
    (hdst : dst.Data = []) (h : (unmarshalEnvelope lib data dst).2 = none) :
    (unmarshalEnvelope lib data dst).1.Data.length = dataLen data := by
  unfold unmarshalEnvelope dataLen at *
  cases hp : parseJSON data with
  | none => simp [hp] at h
  | some v =>
    simp only [hp] at h ⊢
    cases v with
    | null => simp [decodeEnvelope, hdst]
    | object members => exact foldl_decodeMember_ok lib dst hdst members h
    | bool b => simp [decodeEnvelope] at h
    | number t => simp [decodeEnvelope] at h
    | string s => simp [decodeEnvelope] at h
    | array items => simp [decodeEnvelope] at h

theorem unmarshalThreatDescriptorResults_count (lib : Decoders ThreatDescriptor) (data : GoString)
    (h : (unmarshalThreatDescriptorResults lib data ThreatDescriptorResults.zero).2 = none) :
    (unmarshalThreatDescriptorResults lib data ThreatDescriptorResults.zero).1.Data.length = dataLen data :=
  unmarshalEnvelope_count lib data ⟨[], ResultPaging.zero, []⟩ rfl h

theorem unmarshalMalwareResults_count (lib : Decoders MalwareResult) (data : GoString)
    (h : (unmarshalMalwareResults lib data MalwareResults.zero).2 = none) :
    (unmarshalMalwareResults lib data MalwareResults.zero).1.Data.length = dataLen data :=
  unmarshalEnvelope_count lib data ⟨[], ResultPaging.zero, []⟩ rfl h

theorem unmarshalMalwareFamiliesResults_count (lib : Decoders MalwareFamilyResult) (data : GoString)
    (h : (unmarshalMalwareFamiliesResults lib data MalwareFamiliesResults.zero).2 = none) :
    (unmarshalMalwareFamiliesResults lib data MalwareFamiliesResults.zero).1.Data.length = dataLen data :=
  unmarshalEnvelope_count lib data ⟨[], ResultPaging.zero, []⟩ rfl h

theorem unmarshalTEOwnersResults_count (lib : Decoders TEOwner) (data : GoString)
    (h : (unmarshalTEOwnersResults lib data TEOwnersResults.zero).2 = none) :
    (unmarshalTEOwnersResults lib data TEOwnersResults.zero).1.Data.length = dataLen data :=
  unmarshalEnvelope_count lib data ⟨[], ResultPaging.zero, []⟩ rfl h

/-! ## The claims -/

/-- C1 (amended).  In the query string that `query` constructs, decoded, the values of
`limit` are: the decimal text of the `limit` argument when it is positive (nothing when
it is zero or negative), followed by the entry that `extraParams` holds under the key
`limit`, when it holds one.  So for an `extraParams` without the key `limit` the query
string has no `limit` parameter when `limit <= 0` and exactly one, the decimal value,
when `limit > 0`. -/
theorem limit_parameter (u : URL) (c : Client)
    (apiVersion resource startTime endTime resourceType text : GoString) (limit : Int)
    (extraParams : List (GoString × GoString)) :
    (parseQuery
        (queryURL u c apiVersion resource startTime endTime resourceType text limit extraParams).RawQuery).2
      = none ∧
    Values.get
        (parseQuery
          (queryURL u c apiVersion resource startTime endTime resourceType text limit extraParams).RawQuery).1
        (lit "limit")
      = (if limit > 0 then [formatInt limit] else []) ++ entriesOf extraParams (lit "limit") := by
  rw [rawQuery_queryURL]
  have hd := decoded_queryParameters c startTime endTime resourceType text limit extraParams
  refine ⟨hd.1, ?_⟩
  rw [hd.2, get_queryParameters]
  have hk := fixed_keys_ne
  simp [hk.1, hk.2.1, hk.2.2.1, hk.2.2.2.1, hk.2.2.2.2.1, hk.2.2.2.2.2.2.2.2.1,
    hk.2.2.2.2.2.2.2.2.2.2.2.1, hk.2.2.2.2.2.2.2.2.2.2.2.2.2.1, hk.2.2.2.2.2.2.2.2.2.2.2.2.2.2]

/-- C1, counterexample.  With `limit = 0` and an `extraParams` holding `limit: 7` the
query string is `access_token=id%7Csecret&limit=7`: it has a `limit` parameter.  With
`limit = 5` and an `extraParams` holding `limit: 5` it has `limit=5` twice. -/
theorem limit_parameter_collision :
    (queryURL baseURL ⟨lit "id", lit "secret", false⟩ apiVersion (lit "threat_descriptors")
        [] [] [] [] 0 [(lit "limit", lit "7")]).RawQuery = lit "access_token=id%7Csecret&limit=7" ∧
    Values.get (parseQuery (queryURL baseURL ⟨lit "id", lit "secret", false⟩ apiVersion
        (lit "threat_descriptors") [] [] [] [] 0 [(lit "limit", lit "7")]).RawQuery).1 (lit "limit")
      = [lit "7"] ∧
    (queryURL baseURL ⟨lit "id", lit "secret", false⟩ apiVersion (lit "threat_descriptors")
        [] [] [] [] 5 [(lit "limit", lit "5")]).RawQuery = lit "access_token=id%7Csecret&limit=5&limit=5" := by
  decide

/-- C2 (amended).  In the query string that `query` constructs, decoded, the values of
`since`, `until`, `type` and `text` are each: the filter input when it is not the empty
string (nothing at all when it is empty, not even an empty value), followed by the entry
that `extraParams` holds under that key, when it holds one.  So an empty filter leaves
its parameter absent from the URL unless `extraParams` itself has that key. -/
theorem filter_parameters (u : URL) (c : Client)
    (apiVersion resource startTime endTime resourceType text : GoString) (limit : Int)
    (extraParams : List (GoString × GoString)) :
    Values.get
        (parseQuery
          (queryURL u c apiVersion resource startTime endTime resourceType text limit extraParams).RawQuery).1
        (lit "since")
      = (if startTime = [] then [] else [startTime]) ++ entriesOf extraParams (lit "since") ∧
    Values.get
        (parseQuery
          (queryURL u c apiVersion resource startTime endTime resourceType text limit extraParams).RawQuery).1
        (lit "until")
      = (if endTime = [] then [] else [endTime]) ++ entriesOf extraParams (lit "until") ∧
    Values.get
        (parseQuery
          (queryURL u c apiVersion resource startTime endTime resourceType text limit extraParams).RawQuery).1
        (lit "type")
      = (if resourceType = [] then [] else [resourceType]) ++ entriesOf extraParams (lit "type") ∧
    Values.get
        (parseQuery
          (queryURL u c apiVersion resource startTime endTime resourceType text limit extraParams).RawQuery).1
        (lit "text")
      = (if text = [] then [] else [text]) ++ entriesOf extraParams (lit "text") := by
  rw [rawQuery_queryURL]
  have hd := (decoded_queryParameters c startTime endTime resourceType text limit extraParams).2
  have hg := get_fixed_keys c startTime endTime resourceType text limit extraParams
  have hlen : ∀ s : GoString, (if s.length > 0 then [s] else []) = (if s = [] then [] else [s]) := by
    intro s; cases s <;> simp
  simp only [hd, hg.2.1, hg.2.2.1, hg.2.2.2.1, hg.2.2.2.2.1, hlen, and_self]

/-- C2, counterexample.  With an empty `startTime` and an `extraParams` holding
`since: yesterday` the query string is `access_token=id%7Csecret&since=yesterday`: the
`since` parameter is present. -/
theorem filter_parameters_collision :
    (queryURL baseURL ⟨lit "id", lit "secret", false⟩ apiVersion (lit "malware_analyses")
        [] [] [] [] 0 [(lit "since", lit "yesterday")]).RawQuery
      = lit "access_token=id%7Csecret&since=yesterday" ∧
    Values.get (parseQuery (queryURL baseURL ⟨lit "id", lit "secret", false⟩ apiVersion
        (lit "malware_analyses") [] [] [] [] 0 [(lit "since", lit "yesterday")]).RawQuery).1 (lit "since")
      = [lit "yesterday"] := by
  decide

/-- C3.  For every client and every input of `query`, the query string decodes without
error and its `access_token` parameter (the first value of the key, what `Values.Get`
returns) is the application id, a `|`, and the application secret, byte for byte; an
`access_token` entry of `extraParams` comes after it and does not replace it. -/
theorem access_token_parameter (u : URL) (c : Client)
    (apiVersion resource startTime endTime resourceType text : GoString) (limit : Int)
    (extraParams : List (GoString × GoString)) :
    (parseQuery
        (queryURL u c apiVersion resource startTime endTime resourceType text limit extraParams).RawQuery).2
      = none ∧
    Values.Get
        (parseQuery
          (queryURL u c apiVersion resource startTime endTime resourceType text limit extraParams).RawQuery).1
        (lit "access_token")
      = c.appId ++ lit "|" ++ c.appSecret ∧
    Values.get
        (parseQuery
          (queryURL u c apiVersion resource startTime endTime resourceType text limit extraParams).RawQuery).1
        (lit "access_token")
      = (c.appId ++ lit "|" ++ c.appSecret) :: entriesOf extraParams (lit "access_token") := by
  rw [rawQuery_queryURL]
  have hd := decoded_queryParameters c startTime endTime resourceType text limit extraParams
  have hg := get_fixed_keys c startTime endTime resourceType text limit extraParams
  refine ⟨hd.1, ?_, ?_⟩
  · unfold Values.Get; rw [hd.2, hg.1]
  · rw [hd.2, hg.1]

/-- C4.  Every entry `(k, v)` of `extraParams` is in the query string that `query`
constructs: the string decodes without error to a parameter set in which `v` is one of
the values of `k`, whatever the other inputs are. -/
theorem extra_parameter_present (u : URL) (c : Client)
    (apiVersion resource startTime endTime resourceType text : GoString) (limit : Int)
    (extraParams : List (GoString × GoString)) (k v : GoString) (h : (k, v) ∈ extraParams) :
    (parseQuery
        (queryURL u c apiVersion resource startTime endTime resourceType text limit extraParams).RawQuery).2
      = none ∧
    v ∈ Values.get
        (parseQuery
          (queryURL u c apiVersion resource startTime endTime resourceType text limit extraParams).RawQuery).1
        k := by
  rw [rawQuery_queryURL]
  have hd := decoded_queryParameters c startTime endTime resourceType text limit extraParams
  refine ⟨hd.1, ?_⟩
  rw [hd.2, get_queryParameters]
  exact List.mem_append_right _ ((mem_entriesOf extraParams k v).mpr h)

/-- C4, witness: the call of `TestQueryThreatDescriptorsOfIpsProxyByFBAdminOwner`. -/
theorem extra_parameter_present_witness :
    (lit "owner_app_id", lit "820763734618599") ∈ [(lit "owner_app_id", lit "820763734618599")] ∧
    lit "820763734618599" ∈ Values.get
        (parseQuery
          (queryURL baseURL ⟨lit "id", lit "secret", false⟩ apiVersion (lit "threat_descriptors") [] []
            (lit "IP_ADDRESS") (lit "proxy") 0 [(lit "owner_app_id", lit "820763734618599")]).RawQuery).1
        (lit "owner_app_id") :=
  ⟨List.mem_singleton.mpr rfl,
    (extra_parameter_present baseURL ⟨lit "id", lit "secret", false⟩ apiVersion (lit "threat_descriptors")
      [] [] (lit "IP_ADDRESS") (lit "proxy") 0 [(lit "owner_app_id", lit "820763734618599")]
      (lit "owner_app_id") (lit "820763734618599") (List.mem_singleton.mpr rfl)).2⟩

/-- C5.  When the response to the request of a public operation has a body and a
status other than 200, the operation returns a nil result, an empty raw body and the
error `Wrong http return code, got : <status>`; it requests the URL, logs that line
when there is a logger, closes the body, and neither reads the body nor calls the JSON
decoder. -/
theorem non_ok_status_fails (c : Client) (get : Transport)
    (um1 : Unmarshal ThreatDescriptorResults) (um2 : Unmarshal MalwareResults)
    (um3 : Unmarshal MalwareFamiliesResults) (um4 : Unmarshal TEOwnersResults)
    (resourceType text startTime endTime : GoString) (limit : Int)
    (extraParams : List (GoString × GoString)) (res : Response) (body : Body)
    (hbody : res.Body = some body) (hstatus : res.StatusCode ≠ 200) :
    (get (c.requestURL (lit "threat_descriptors") startTime endTime resourceType text limit extraParams)
        = Except.ok res →
      (c.GetThreatIndicators get um1 resourceType text startTime endTime limit extraParams).isStatusFailure c
        (c.requestURL (lit "threat_descriptors") startTime endTime resourceType text limit extraParams)
        res.StatusCode) ∧
    (get (c.requestURL (lit "malware_analyses") startTime endTime [] text limit extraParams)
        = Except.ok res →
      (c.GetMalwareAnalyses get um2 text startTime endTime limit extraParams).isStatusFailure c
        (c.requestURL (lit "malware_analyses") startTime endTime [] text limit extraParams)
        res.StatusCode) ∧
    (get (c.requestURL (lit "malware_families") startTime endTime [] text limit extraParams)
        = Except.ok res →
      (c.GetMalwareFamilies get um3 text startTime endTime limit extraParams).isStatusFailure c
        (c.requestURL (lit "malware_families") startTime endTime [] text limit extraParams)
        res.StatusCode) ∧
    (get (c.requestURL (lit "threat_exchange_members") [] [] [] [] 0 []) = Except.ok res →
      (c.GetThreatExchangeMembers get um4).isStatusFailure c
        (c.requestURL (lit "threat_exchange_members") [] [] [] [] 0 []) res.StatusCode) :=
  ⟨fun hget => ofQuery_bad_status c get um1 _ _ _ _ _ _ _ _ res body hget hbody hstatus,
    fun hget => ofQuery_bad_status c get um2 _ _ _ _ _ _ _ _ res body hget hbody hstatus,
    fun hget => ofQuery_bad_status c get um3 _ _ _ _ _ _ _ _ res body hget hbody hstatus,
    fun hget => ofQuery_bad_status c get um4 _ _ _ _ _ _ _ _ res body hget hbody hstatus⟩

/-- C5, witness: a transport that answers every request with status 404 and the body
`Not Found`. -/
theorem non_ok_status_fails_witness :
    (404 : Int) ≠ 200 ∧
    ((⟨lit "id", lit "secret", true⟩ : Client).GetThreatExchangeMembers
        (fun _ => Except.ok ⟨404, some ⟨Except.ok (lit "Not Found")⟩⟩)
        (unmarshalSample TEOwnersResults.zero)).isStatusFailure ⟨lit "id", lit "secret", true⟩
      ((⟨lit "id", lit "secret", true⟩ : Client).requestURL (lit "threat_exchange_members") [] [] [] [] 0 [])
      404 ∧
    ((⟨lit "id", lit "secret", true⟩ : Client).GetMalwareAnalyses
        (fun _ => Except.ok ⟨404, some ⟨Except.ok (lit "Not Found")⟩⟩)
        (unmarshalSample MalwareResults.zero) [] (lit "1391813489") (lit "1391856689") 500 []).isStatusFailure
      ⟨lit "id", lit "secret", true⟩
      ((⟨lit "id", lit "secret", true⟩ : Client).requestURL (lit "malware_analyses") (lit "1391813489")
        (lit "1391856689") [] [] 500 [])
      404 :=
  ⟨by decide,
    (non_ok_status_fails ⟨lit "id", lit "secret", true⟩
      (fun _ => Except.ok ⟨404, some ⟨Except.ok (lit "Not Found")⟩⟩)
      (unmarshalSample ThreatDescriptorResults.zero) (unmarshalSample MalwareResults.zero)
      (unmarshalSample MalwareFamiliesResults.zero) (unmarshalSample TEOwnersResults.zero)
      [] [] (lit "1391813489") (lit "1391856689") 500 []
      ⟨404, some ⟨Except.ok (lit "Not Found")⟩⟩ ⟨Except.ok (lit "Not Found")⟩ rfl (by decide)).2.2.2 rfl,
    (non_ok_status_fails ⟨lit "id", lit "secret", true⟩
      (fun _ => Except.ok ⟨404, some ⟨Except.ok (lit "Not Found")⟩⟩)
      (unmarshalSample ThreatDescriptorResults.zero) (unmarshalSample MalwareResults.zero)
      (unmarshalSample MalwareFamiliesResults.zero) (unmarshalSample TEOwnersResults.zero)
      [] [] (lit "1391813489") (lit "1391856689") 500 []
      ⟨404, some ⟨Except.ok (lit "Not Found")⟩⟩ ⟨Except.ok (lit "Not Found")⟩ rfl (by decide)).2.1 rfl⟩

/-- C6 (amended).  When the response has status 200 and the decoder rejects the bytes
read from its body, the operation returns the decoder's own error unchanged, with a nil
result and an empty raw body.  The resource name and the raw body are in the line
`Could not Unmarshal response body : <body>, for resource : <resource>`, which goes to
the logger when the client has one. -/
theorem decode_failure_returns_decoder_error (c : Client) (get : Transport)
    (um1 : Unmarshal ThreatDescriptorResults) (um2 : Unmarshal MalwareResults)
    (um3 : Unmarshal MalwareFamiliesResults) (um4 : Unmarshal TEOwnersResults)
    (resourceType text startTime endTime : GoString) (limit : Int)
    (extraParams : List (GoString × GoString)) (res : Response) (body : Body) (byteRes : GoString)
    (hbody : res.Body = some body) (hstatus : res.StatusCode = 200)
    (hread : body.readAll = Except.ok byteRes) :
    (get (c.requestURL (lit "threat_descriptors") startTime endTime resourceType text limit extraParams)
        = Except.ok res →
      ∀ err, (um1 byteRes ThreatDescriptorResults.zero).2 = some err →
      (c.GetThreatIndicators get um1 resourceType text startTime endTime limit extraParams).isDecodeFailure c
        (c.requestURL (lit "threat_descriptors") startTime endTime resourceType text limit extraParams)
        byteRes (lit "threat_descriptors") err) ∧
    (get (c.requestURL (lit "malware_analyses") startTime endTime [] text limit extraParams)
        = Except.ok res →
      ∀ err, (um2 byteRes MalwareResults.zero).2 = some err →
      (c.GetMalwareAnalyses get um2 text startTime endTime limit extraParams).isDecodeFailure c
        (c.requestURL (lit "malware_analyses") startTime endTime [] text limit extraParams)
        byteRes (lit "malware_analyses") err) ∧
    (get (c.requestURL (lit "malware_families") startTime endTime [] text limit extraParams)
        = Except.ok res →
      ∀ err, (um3 byteRes MalwareFamiliesResults.zero).2 = some err →
      (c.GetMalwareFamilies get um3 text startTime endTime limit extraParams).isDecodeFailure c
        (c.requestURL (lit "malware_families") startTime endTime [] text limit extraParams)
        byteRes (lit "malware_families") err) ∧
    (get (c.requestURL (lit "threat_exchange_members") [] [] [] [] 0 []) = Except.ok res →
      ∀ err, (um4 byteRes TEOwnersResults.zero).2 = some err →
      (c.GetThreatExchangeMembers get um4).isDecodeFailure c
        (c.requestURL (lit "threat_exchange_members") [] [] [] [] 0 []) byteRes
        (lit "threat_exchange_members") err) ∧
    (∀ resource : GoString,
      strContains
          (lit "Could not Unmarshal response body : " ++ byteRes ++ lit ", for resource : " ++ resource)
          resource = true ∧
      strContains
          (lit "Could not Unmarshal response body : " ++ byteRes ++ lit ", for resource : " ++ resource)
          byteRes = true) := by
  refine ⟨fun hget err hj => ofQuery_decode_error c get um1 _ _ _ _ _ _ _ _ res body byteRes err hget hbody
      hstatus hread hj,
    fun hget err hj => ofQuery_decode_error c get um2 _ _ _ _ _ _ _ _ res body byteRes err hget hbody
      hstatus hread hj,
    fun hget err hj => ofQuery_decode_error c get um3 _ _ _ _ _ _ _ _ res body byteRes err hget hbody
      hstatus hread hj,
    fun hget err hj => ofQuery_decode_error c get um4 _ _ _ _ _ _ _ _ res body byteRes err hget hbody
      hstatus hread hj, ?_⟩
  intro resource
  constructor
  · have := strContains_append
      (lit "Could not Unmarshal response body : " ++ byteRes ++ lit ", for resource : ") resource []
    simpa using this
  · have := strContains_append (lit "Could not Unmarshal response body : ") byteRes
      (lit ", for resource : " ++ resource)
    simpa using this

/-- C6, witness: status 200 with an empty body, which the decoder rejects. -/
theorem decode_failure_returns_decoder_error_witness :
    ((⟨lit "id", lit "secret", true⟩ : Client).GetThreatExchangeMembers
        (fun _ => Except.ok ⟨200, some ⟨Except.ok []⟩⟩)
        (unmarshalSample TEOwnersResults.zero)).isDecodeFailure ⟨lit "id", lit "secret", true⟩
      ((⟨lit "id", lit "secret", true⟩ : Client).requestURL (lit "threat_exchange_members") [] [] [] [] 0 [])
      [] (lit "threat_exchange_members") ⟨lit "unexpected end of JSON input"⟩ :=
  (decode_failure_returns_decoder_error ⟨lit "id", lit "secret", true⟩
    (fun _ => Except.ok ⟨200, some ⟨Except.ok []⟩⟩)
    (unmarshalSample ThreatDescriptorResults.zero) (unmarshalSample MalwareResults.zero)
    (unmarshalSample MalwareFamiliesResults.zero) (unmarshalSample TEOwnersResults.zero)
    [] [] [] [] 0 [] ⟨200, some ⟨Except.ok []⟩⟩ ⟨Except.ok []⟩ [] rfl rfl rfl).2.2.2.1 rfl
    ⟨lit "unexpected end of JSON input"⟩ (by decide)

/-- C6, counterexample.  `GetThreatExchangeMembers` against a response with status 200
and an empty body returns the error `unexpected end of JSON input`, the decoder's own:
its text does not contain the resource name `threat_exchange_members`. -/
theorem decode_error_lacks_resource_name :
    ((⟨lit "id", lit "secret", true⟩ : Client).GetThreatExchangeMembers
        (fun _ => Except.ok ⟨200, some ⟨Except.ok []⟩⟩)
        (unmarshalSample TEOwnersResults.zero)).err = some ⟨lit "unexpected end of JSON input"⟩ ∧
    (((⟨lit "id", lit "secret", true⟩ : Client).GetThreatExchangeMembers
        (fun _ => Except.ok ⟨200, some ⟨Except.ok []⟩⟩)
        (unmarshalSample TEOwnersResults.zero)).err.map
      (fun e => strContains e.msg (lit "threat_exchange_members"))) = some false := by
  decide

/-- C7 (amended).  When the response has status 200 and `json.Unmarshal` accepts the
bytes read from its body, the operation returns those bytes as the raw body, and as
typed result the decoding of those same bytes; the call requests the URL once, reads
the body once and decodes once.  The number of records of the typed result is the
length of the array that the last member named `data`, in any letter case, of the
top-level object of the raw body holds, and zero when the raw body has no such
member, or when that member or the whole body is `null`. -/
theorem success_returns_the_bytes_read (c : Client) (get : Transport)
    (lib1 : Decoders ThreatDescriptor) (lib2 : Decoders MalwareResult)
    (lib3 : Decoders MalwareFamilyResult) (lib4 : Decoders TEOwner)
    (resourceType text startTime endTime : GoString) (limit : Int)
    (extraParams : List (GoString × GoString)) (res : Response) (body : Body) (byteRes : GoString)
    (hbody : res.Body = some body) (hstatus : res.StatusCode = 200)
    (hread : body.readAll = Except.ok byteRes) :
    (get (c.requestURL (lit "threat_descriptors") startTime endTime resourceType text limit extraParams)
        = Except.ok res →
      (unmarshalThreatDescriptorResults lib1 byteRes ThreatDescriptorResults.zero).2 = none →
      (c.GetThreatIndicators get (unmarshalThreatDescriptorResults lib1) resourceType text startTime
          endTime limit extraParams).isSuccess
        (c.requestURL (lit "threat_descriptors") startTime endTime resourceType text limit extraParams)
        byteRes (unmarshalThreatDescriptorResults lib1 byteRes ThreatDescriptorResults.zero).1 ∧
      ∀ r, (c.GetThreatIndicators get (unmarshalThreatDescriptorResults lib1) resourceType text startTime
          endTime limit extraParams).result = some r →
        r.Data.length = dataLen
          (c.GetThreatIndicators get (unmarshalThreatDescriptorResults lib1) resourceType text startTime
            endTime limit extraParams).raw) ∧
    (get (c.requestURL (lit "malware_analyses") startTime endTime [] text limit extraParams)
        = Except.ok res →
      (unmarshalMalwareResults lib2 byteRes MalwareResults.zero).2 = none →
      (c.GetMalwareAnalyses get (unmarshalMalwareResults lib2) text startTime endTime limit
          extraParams).isSuccess
        (c.requestURL (lit "malware_analyses") startTime endTime [] text limit extraParams)
        byteRes (unmarshalMalwareResults lib2 byteRes MalwareResults.zero).1 ∧
      ∀ r, (c.GetMalwareAnalyses get (unmarshalMalwareResults lib2) text startTime endTime limit
          extraParams).result = some r →
        r.Data.length = dataLen
          (c.GetMalwareAnalyses get (unmarshalMalwareResults lib2) text startTime endTime limit
            extraParams).raw) ∧
    (get (c.requestURL (lit "malware_families") startTime endTime [] text limit extraParams)
        = Except.ok res →
      (unmarshalMalwareFamiliesResults lib3 byteRes MalwareFamiliesResults.zero).2 = none →
      (c.GetMalwareFamilies get (unmarshalMalwareFamiliesResults lib3) text startTime endTime limit
          extraParams).isSuccess
        (c.requestURL (lit "malware_families") startTime endTime [] text limit extraParams)
        byteRes (unmarshalMalwareFamiliesResults lib3 byteRes MalwareFamiliesResults.zero).1 ∧
      ∀ r, (c.GetMalwareFamilies get (unmarshalMalwareFamiliesResults lib3) text startTime endTime limit
          extraParams).result = some r →
        r.Data.length = dataLen
          (c.GetMalwareFamilies get (unmarshalMalwareFamiliesResults lib3) text startTime endTime limit
            extraParams).raw) ∧
    (get (c.requestURL (lit "threat_exchange_members") [] [] [] [] 0 []) = Except.ok res →
      (unmarshalTEOwnersResults lib4 byteRes TEOwnersResults.zero).2 = none →
      (c.GetThreatExchangeMembers get (unmarshalTEOwnersResults lib4)).isSuccess
        (c.requestURL (lit "threat_exchange_members") [] [] [] [] 0 []) byteRes
        (unmarshalTEOwnersResults lib4 byteRes TEOwnersResults.zero).1 ∧
      ∀ r, (c.GetThreatExchangeMembers get (unmarshalTEOwnersResults lib4)).result = some r →
        r.Data.length = dataLen (c.GetThreatExchangeMembers get (unmarshalTEOwnersResults lib4)).raw) := by
  refine ⟨?_, ?_, ?_, ?_⟩
  · intro hget hj
    have hs := ofQuery_success c get (unmarshalThreatDescriptorResults lib1) _ _ _ _ _ _ _
      ThreatDescriptorResults.zero res body byteRes hget hbody hstatus hread hj
    refine ⟨hs, fun r hr => ?_⟩
    have h1 : (c.GetThreatIndicators get (unmarshalThreatDescriptorResults lib1) resourceType text
        startTime endTime limit extraParams).result
        = some (unmarshalThreatDescriptorResults lib1 byteRes ThreatDescriptorResults.zero).1 := hs.1
    have h2 : (c.GetThreatIndicators get (unmarshalThreatDescriptorResults lib1) resourceType text
        startTime endTime limit extraParams).raw = byteRes := hs.2.1
    rw [h2]
    rw [h1] at hr
    rw [← Option.some.inj hr]
    exact unmarshalThreatDescriptorResults_count lib1 byteRes hj
  · intro hget hj
    have hs := ofQuery_success c get (unmarshalMalwareResults lib2) _ _ _ _ _ _ _
      MalwareResults.zero res body byteRes hget hbody hstatus hread hj
    refine ⟨hs, fun r hr => ?_⟩
    have h1 : (c.GetMalwareAnalyses get (unmarshalMalwareResults lib2) text startTime endTime limit
        extraParams).result = some (unmarshalMalwareResults lib2 byteRes MalwareResults.zero).1 := hs.1
    have h2 : (c.GetMalwareAnalyses get (unmarshalMalwareResults lib2) text startTime endTime limit
        extraParams).raw = byteRes := hs.2.1
    rw [h2]
    rw [h1] at hr
    rw [← Option.some.inj hr]
    exact unmarshalMalwareResults_count lib2 byteRes hj
  · intro hget hj
    have hs := ofQuery_success c get (unmarshalMalwareFamiliesResults lib3) _ _ _ _ _ _ _
      MalwareFamiliesResults.zero res body byteRes hget hbody hstatus hread hj
    refine ⟨hs, fun r hr => ?_⟩
    have h1 : (c.GetMalwareFamilies get (unmarshalMalwareFamiliesResults lib3) text startTime endTime
        limit extraParams).result
        = some (unmarshalMalwareFamiliesResults lib3 byteRes MalwareFamiliesResults.zero).1 := hs.1
    have h2 : (c.GetMalwareFamilies get (unmarshalMalwareFamiliesResults lib3) text startTime endTime
        limit extraParams).raw = byteRes := hs.2.1
    rw [h2]
    rw [h1] at hr
    rw [← Option.some.inj hr]
    exact unmarshalMalwareFamiliesResults_count lib3 byteRes hj
  · intro hget hj
    have hs := ofQuery_success c get (unmarshalTEOwnersResults lib4) _ _ _ _ _ _ _
      TEOwnersResults.zero res body byteRes hget hbody hstatus hread hj
    refine ⟨hs, fun r hr => ?_⟩
    have h1 : (c.GetThreatExchangeMembers get (unmarshalTEOwnersResults lib4)).result
        = some (unmarshalTEOwnersResults lib4 byteRes TEOwnersResults.zero).1 := hs.1
    have h2 : (c.GetThreatExchangeMembers get (unmarshalTEOwnersResults lib4)).raw = byteRes := hs.2.1
    rw [h2]
    rw [h1] at hr
    rw [← Option.some.inj hr]
    exact unmarshalTEOwnersResults_count lib4 byteRes hj

/-- C7, witness: status 200 with the body `{"data":[{},{}]}`; the result has two
records and the `data` array of the raw body has length two. -/
theorem success_returns_the_bytes_read_witness :
    (((⟨lit "id", lit "secret", false⟩ : Client).GetThreatExchangeMembers
        (fun _ => Except.ok ⟨200, some ⟨Except.ok (lit "\x7b\"data\":[\x7b\x7d,\x7b\x7d]\x7d")⟩⟩)
        (unmarshalTEOwnersResults (sampleDecoders TEOwner.zero))).isSuccess
      ((⟨lit "id", lit "secret", false⟩ : Client).requestURL (lit "threat_exchange_members") [] [] [] [] 0 [])
      (lit "\x7b\"data\":[\x7b\x7d,\x7b\x7d]\x7d")
      (unmarshalTEOwnersResults (sampleDecoders TEOwner.zero) (lit "\x7b\"data\":[\x7b\x7d,\x7b\x7d]\x7d")
        TEOwnersResults.zero).1 ∧
      ∀ r, ((⟨lit "id", lit "secret", false⟩ : Client).GetThreatExchangeMembers
          (fun _ => Except.ok ⟨200, some ⟨Except.ok (lit "\x7b\"data\":[\x7b\x7d,\x7b\x7d]\x7d")⟩⟩)
          (unmarshalTEOwnersResults (sampleDecoders TEOwner.zero))).result = some r →
        r.Data.length = dataLen
          ((⟨lit "id", lit "secret", false⟩ : Client).GetThreatExchangeMembers
            (fun _ => Except.ok ⟨200, some ⟨Except.ok (lit "\x7b\"data\":[\x7b\x7d,\x7b\x7d]\x7d")⟩⟩)
            (unmarshalTEOwnersResults (sampleDecoders TEOwner.zero))).raw) ∧
    dataLen (lit "\x7b\"data\":[\x7b\x7d,\x7b\x7d]\x7d") = 2 ∧
    dataArrayLengths (lit "\x7b\"data\":[\x7b\x7d,\x7b\x7d]\x7d") = [2] :=
  ⟨(success_returns_the_bytes_read ⟨lit "id", lit "secret", false⟩
      (fun _ => Except.ok ⟨200, some ⟨Except.ok (lit "\x7b\"data\":[\x7b\x7d,\x7b\x7d]\x7d")⟩⟩)
      (sampleDecoders ThreatDescriptor.zero) (sampleDecoders MalwareResult.zero)
      (sampleDecoders MalwareFamilyResult.zero) (sampleDecoders TEOwner.zero)
      [] [] [] [] 0 [] ⟨200, some ⟨Except.ok (lit "\x7b\"data\":[\x7b\x7d,\x7b\x7d]\x7d")⟩⟩
      ⟨Except.ok (lit "\x7b\"data\":[\x7b\x7d,\x7b\x7d]\x7d")⟩ (lit "\x7b\"data\":[\x7b\x7d,\x7b\x7d]\x7d")
      rfl rfl rfl).2.2.2 rfl (by decide),
    by decide, by decide⟩

/-- C7, counterexample.  `GetThreatExchangeMembers` against a response with status 200
and the body `{"data":[{}],"DATA":[]}` succeeds and returns that body; the `data`
array of the body has length one, and the typed result has no record, since the
member `DATA` is decoded into the same field after it. -/
theorem record_count_is_not_the_data_array_length :
    ((⟨lit "id", lit "secret", false⟩ : Client).GetThreatExchangeMembers
        (fun _ => Except.ok ⟨200, some ⟨Except.ok (lit "\x7b\"data\":[\x7b\x7d],\"DATA\":[]\x7d")⟩⟩)
        (unmarshalTEOwnersResults (sampleDecoders TEOwner.zero))).err = none ∧
    ((⟨lit "id", lit "secret", false⟩ : Client).GetThreatExchangeMembers
        (fun _ => Except.ok ⟨200, some ⟨Except.ok (lit "\x7b\"data\":[\x7b\x7d],\"DATA\":[]\x7d")⟩⟩)
        (unmarshalTEOwnersResults (sampleDecoders TEOwner.zero))).raw
      = lit "\x7b\"data\":[\x7b\x7d],\"DATA\":[]\x7d" ∧
    (((⟨lit "id", lit "secret", false⟩ : Client).GetThreatExchangeMembers
        (fun _ => Except.ok ⟨200, some ⟨Except.ok (lit "\x7b\"data\":[\x7b\x7d],\"DATA\":[]\x7d")⟩⟩)
        (unmarshalTEOwnersResults (sampleDecoders TEOwner.zero))).result.map (fun r => r.Data.length))
      = some 0 ∧
    dataArrayLengths (lit "\x7b\"data\":[\x7b\x7d],\"DATA\":[]\x7d") = [1] := by
  decide

/-- C8.  Each public operation requests the base endpoint followed by
`/v2.5/<resource>/`, a `?` and the encoded parameters, with the resource
`threat_descriptors`, `malware_analyses`, `malware_families` and
`threat_exchange_members` respectively (the two malware operations pass no `type`
filter); the query string of `GetThreatExchangeMembers` is `access_token=` followed by
the escaped token and decodes to that one parameter only. -/
theorem requested_urls (c : Client) (get : Transport)
    (um1 : Unmarshal ThreatDescriptorResults) (um2 : Unmarshal MalwareResults)
    (um3 : Unmarshal MalwareFamiliesResults) (um4 : Unmarshal TEOwnersResults)
    (resourceType text startTime endTime : GoString) (limit : Int)
    (extraParams : List (GoString × GoString)) :
    (c.GetThreatIndicators get um1 resourceType text startTime endTime limit extraParams).trace.head? =
      some (Event.httpGet (DefaultURL ++ lit "/v2.5/threat_descriptors/" ++ lit "?" ++
        Values.encode (queryParameters c startTime endTime resourceType text limit extraParams))) ∧
    (c.GetMalwareAnalyses get um2 text startTime endTime limit extraParams).trace.head? =
      some (Event.httpGet (DefaultURL ++ lit "/v2.5/malware_analyses/" ++ lit "?" ++
        Values.encode (queryParameters c startTime endTime [] text limit extraParams))) ∧
    (c.GetMalwareFamilies get um3 text startTime endTime limit extraParams).trace.head? =
      some (Event.httpGet (DefaultURL ++ lit "/v2.5/malware_families/" ++ lit "?" ++
        Values.encode (queryParameters c startTime endTime [] text limit extraParams))) ∧
    (c.GetThreatExchangeMembers get um4).trace.head? =
      some (Event.httpGet (DefaultURL ++ lit "/v2.5/threat_exchange_members/" ++ lit "?" ++
        (lit "access_token=" ++ queryEscape (c.appId ++ lit "|" ++ c.appSecret)))) ∧
    parseQuery (lit "access_token=" ++ queryEscape (c.appId ++ lit "|" ++ c.appSecret)) =
      ([(lit "access_token", [c.appId ++ lit "|" ++ c.appSecret])], none) := by
  refine ⟨?_, ?_, ?_, ?_, ?_⟩
  · unfold Client.GetThreatIndicators
    rw [trace_ofQuery, query_trace_head, requestURL_eq c _ _ _ _ _ _ _ (by decide)]
    rfl
  · unfold Client.GetMalwareAnalyses
    rw [trace_ofQuery, query_trace_head, requestURL_eq c _ _ _ _ _ _ _ (by decide)]
    rfl
  · unfold Client.GetMalwareFamilies
    rw [trace_ofQuery, query_trace_head, requestURL_eq c _ _ _ _ _ _ _ (by decide)]
    rfl
  · unfold Client.GetThreatExchangeMembers
    rw [trace_ofQuery, query_trace_head, requestURL_eq c _ _ _ _ _ _ _ (by decide), encode_members]
    rfl
  · have h := parseQuery_joinAmp [(lit "access_token", c.appId ++ lit "|" ++ c.appSecret)]
    have hk : queryEscape (lit "access_token") = lit "access_token" := by decide
    have hl : lit "access_token=" = lit "access_token" ++ [61] := by decide
    simp only [List.map_cons, List.map_nil, joinAmp, segment, List.flatMap_nil, List.append_nil,
      List.foldl_cons, List.foldl_nil, Values.add, hk] at h
    rw [hl]
    simpa using h

/-- C9.  Each public operation returns one of two shapes, whatever the inputs and
whatever the transport does: no error, a typed result and a non-empty raw body; or an
error, a nil result and the empty raw body.  The decoder is `json.Unmarshal`, which
rejects the empty input. -/
theorem result_has_one_of_two_shapes (c : Client) (get : Transport)
    (um1 : Unmarshal ThreatDescriptorResults) (um2 : Unmarshal MalwareResults)
    (um3 : Unmarshal MalwareFamiliesResults) (um4 : Unmarshal TEOwnersResults)
    (resourceType text startTime endTime : GoString) (limit : Int)
    (extraParams : List (GoString × GoString))
    (hempty1 : ∀ r, (um1 [] r).2 ≠ none) (hempty2 : ∀ r, (um2 [] r).2 ≠ none)
    (hempty3 : ∀ r, (um3 [] r).2 ≠ none) (hempty4 : ∀ r, (um4 [] r).2 ≠ none) :
    (c.GetThreatIndicators get um1 resourceType text startTime endTime limit extraParams).wellShaped ∧
    (c.GetMalwareAnalyses get um2 text startTime endTime limit extraParams).wellShaped ∧
    (c.GetMalwareFamilies get um3 text startTime endTime limit extraParams).wellShaped ∧
    (c.GetThreatExchangeMembers get um4).wellShaped :=
  ⟨ofQuery_wellShaped c get um1 _ _ _ _ _ _ _ _ hempty1, ofQuery_wellShaped c get um2 _ _ _ _ _ _ _ _ hempty2,
    ofQuery_wellShaped c get um3 _ _ _ _ _ _ _ _ hempty3, ofQuery_wellShaped c get um4 _ _ _ _ _ _ _ _ hempty4⟩

/-- C9, witness: a transport that fails, with the sample decoder. -/
theorem result_has_one_of_two_shapes_witness :
    ((⟨lit "id", lit "secret", false⟩ : Client).GetThreatExchangeMembers
        (fun _ => Except.error ⟨lit "dial tcp: connection refused"⟩)
        (unmarshalSample TEOwnersResults.zero)).wellShaped ∧
    ((⟨lit "id", lit "secret", false⟩ : Client).GetMalwareAnalyses
        (fun _ => Except.error ⟨lit "dial tcp: connection refused"⟩)
        (unmarshalSample MalwareResults.zero) [] (lit "1391813489") (lit "1391856689") 500 []).wellShaped :=
  ⟨(result_has_one_of_two_shapes ⟨lit "id", lit "secret", false⟩
      (fun _ => Except.error ⟨lit "dial tcp: connection refused"⟩)
      (unmarshalSample ThreatDescriptorResults.zero) (unmarshalSample MalwareResults.zero)
      (unmarshalSample MalwareFamiliesResults.zero) (unmarshalSample TEOwnersResults.zero)
      [] [] (lit "1391813489") (lit "1391856689") 500 []
      (unmarshalSample_empty _) (unmarshalSample_empty _) (unmarshalSample_empty _)
      (unmarshalSample_empty _)).2.2.2,
    (result_has_one_of_two_shapes ⟨lit "id", lit "secret", false⟩
      (fun _ => Except.error ⟨lit "dial tcp: connection refused"⟩)
      (unmarshalSample ThreatDescriptorResults.zero) (unmarshalSample MalwareResults.zero)
      (unmarshalSample MalwareFamiliesResults.zero) (unmarshalSample TEOwnersResults.zero)
      [] [] (lit "1391813489") (lit "1391856689") 500 []
      (unmarshalSample_empty _) (unmarshalSample_empty _) (unmarshalSample_empty _)
      (unmarshalSample_empty _)).2.1⟩

/-- C10.  The encoded query string of `query` does not depend on the order in which
the entries of the `extraParams` map are visited: two orders of the same entries give
the same string.  The string is the `&`-join of `key=value` pairs whose keys ascend.
When `extraParams` has an entry under one of the fixed keys, the decoded query string
has both values under that key, the fixed one first and the entry of `extraParams`
second. -/
theorem encode_independent_of_iteration_order (c : Client)
    (startTime endTime resourceType text : GoString) (limit : Int)
    (extraParams order2 : List (GoString × GoString))
    (hmap : (extraParams.map Prod.fst).Nodup) (horder : extraParams.Perm order2) :
    Values.encode (queryParameters c startTime endTime resourceType text limit extraParams) =
      Values.encode (queryParameters c startTime endTime resourceType text limit order2) ∧
    Values.encode (queryParameters c startTime endTime resourceType text limit extraParams) =
      joinAmp ((Values.pairs (queryParameters c startTime endTime resourceType text limit extraParams)).map
        segment) ∧
    List.Sorted (fun a b => strLe a b = true)
      ((Values.pairs (queryParameters c startTime endTime resourceType text limit extraParams)).map
        Prod.fst) ∧
    (∀ x, (lit "access_token", x) ∈ extraParams →
      Values.get (parseQuery (Values.encode
          (queryParameters c startTime endTime resourceType text limit extraParams))).1 (lit "access_token")
        = [c.appId ++ lit "|" ++ c.appSecret, x]) ∧
    (∀ x, startTime ≠ [] → (lit "since", x) ∈ extraParams →
      Values.get (parseQuery (Values.encode
          (queryParameters c startTime endTime resourceType text limit extraParams))).1 (lit "since")
        = [startTime, x]) ∧
    (∀ x, endTime ≠ [] → (lit "until", x) ∈ extraParams →
      Values.get (parseQuery (Values.encode
          (queryParameters c startTime endTime resourceType text limit extraParams))).1 (lit "until")
        = [endTime, x]) ∧
    (∀ x, resourceType ≠ [] → (lit "type", x) ∈ extraParams →
      Values.get (parseQuery (Values.encode
          (queryParameters c startTime endTime resourceType text limit extraParams))).1 (lit "type")
        = [resourceType, x]) ∧
    (∀ x, text ≠ [] → (lit "text", x) ∈ extraParams →
      Values.get (parseQuery (Values.encode
          (queryParameters c startTime endTime resourceType text limit extraParams))).1 (lit "text")
        = [text, x]) ∧
    (∀ x, limit > 0 → (lit "limit", x) ∈ extraParams →
      Values.get (parseQuery (Values.encode
          (queryParameters c startTime endTime resourceType text limit extraParams))).1 (lit "limit")
        = [formatInt limit, x]) := by
  have hd := (decoded_queryParameters c startTime endTime resourceType text limit extraParams).2
  have hg := get_fixed_keys c startTime endTime resourceType text limit extraParams
  have hpos : ∀ s : GoString, s ≠ [] → s.length > 0 := fun s h => List.length_pos.mpr h
  refine ⟨?_, encode_eq _, sorted_keys_pairs _, ?_, ?_, ?_, ?_, ?_, ?_⟩
  · apply encode_congr
    · apply (List.perm_ext_iff_of_nodup (nodup_keys_queryParameters _ _ _ _ _ _ _)
        (nodup_keys_queryParameters _ _ _ _ _ _ _)).mpr
      intro key
      rw [mem_keys_queryParameters, mem_keys_queryParameters, (horder.map Prod.fst).mem_iff]
    · intro key
      rw [get_queryParameters, get_queryParameters, entriesOf_perm extraParams order2 key hmap horder]
  · intro x hx
    rw [hd, hg.1, entriesOf_of_mem _ _ _ hmap hx]
  · intro x hs hx
    rw [hd, hg.2.1, entriesOf_of_mem _ _ _ hmap hx, if_pos (hpos _ hs)]; rfl
  · intro x hs hx
    rw [hd, hg.2.2.1, entriesOf_of_mem _ _ _ hmap hx, if_pos (hpos _ hs)]; rfl
  · intro x hs hx
    rw [hd, hg.2.2.2.1, entriesOf_of_mem _ _ _ hmap hx, if_pos (hpos _ hs)]; rfl
  · intro x hs hx
    rw [hd, hg.2.2.2.2.1, entriesOf_of_mem _ _ _ hmap hx, if_pos (hpos _ hs)]; rfl
  · intro x hs hx
    rw [hd, hg.2.2.2.2.2, entriesOf_of_mem _ _ _ hmap hx, if_pos hs]; rfl

/-- C10, witness: a map with the entries `type: x y` and `owner_app_id: 1`, visited in
both orders, with `resourceType = IP_ADDRESS`; the string is
`access_token=id%7Csecret&owner_app_id=1&type=IP_ADDRESS&type=x+y` both times, and it
decodes to the two values `IP_ADDRESS`, `x y` of `type`, in this order. -/
theorem encode_independent_of_iteration_order_witness :
    ([(lit "type", lit "x y"), (lit "owner_app_id", lit "1")].map Prod.fst).Nodup ∧
    [(lit "type", lit "x y"), (lit "owner_app_id", lit "1")].Perm
      [(lit "owner_app_id", lit "1"), (lit "type", lit "x y")] ∧
    Values.encode (queryParameters ⟨lit "id", lit "secret", false⟩ [] [] (lit "IP_ADDRESS") [] 0
        [(lit "type", lit "x y"), (lit "owner_app_id", lit "1")]) =
      Values.encode (queryParameters ⟨lit "id", lit "secret", false⟩ [] [] (lit "IP_ADDRESS") [] 0
        [(lit "owner_app_id", lit "1"), (lit "type", lit "x y")]) ∧
    Values.encode (queryParameters ⟨lit "id", lit "secret", false⟩ [] [] (lit "IP_ADDRESS") [] 0
        [(lit "type", lit "x y"), (lit "owner_app_id", lit "1")]) =
      lit "access_token=id%7Csecret&owner_app_id=1&type=IP_ADDRESS&type=x+y" ∧
    Values.get (parseQuery (Values.encode (queryParameters ⟨lit "id", lit "secret", false⟩ [] []
        (lit "IP_ADDRESS") [] 0 [(lit "type", lit "x y"), (lit "owner_app_id", lit "1")]))).1 (lit "type")
      = [lit "IP_ADDRESS", lit "x y"] :=
  ⟨by decide, List.Perm.swap _ _ _,
    (encode_independent_of_iteration_order ⟨lit "id", lit "secret", false⟩ [] [] (lit "IP_ADDRESS") [] 0
      [(lit "type", lit "x y"), (lit "owner_app_id", lit "1")]
      [(lit "owner_app_id", lit "1"), (lit "type", lit "x y")] (by decide) (List.Perm.swap _ _ _)).1,
    by decide,
    (encode_independent_of_iteration_order ⟨lit "id", lit "secret", false⟩ [] [] (lit "IP_ADDRESS") [] 0
      [(lit "type", lit "x y"), (lit "owner_app_id", lit "1")]
      [(lit "owner_app_id", lit "1"), (lit "type", lit "x y")] (by decide)
      (List.Perm.swap _ _ _)).2.2.2.2.2.2.1 (lit "x y") (by decide) (by decide)⟩

end ThreatExchange
